import Mathlib

/-!
# Verification of the tradeflow-backend analytics engine

Shallow embedding of the market-data, order-flow, volume-profile and
websocket services of the `alphachart` repository
(`app/services/market_data_service.py`, `orderflow_service.py`,
`volume_profile_service.py`, `websocket_service.py`).

Modelling conventions:
* Python floats are modelled as rationals (`ℚ`);
* SQL `NULL` / Python `None` as `Option`;
* datetimes as integer epoch seconds (`ℤ`);
* calls to `random.random`, `random.uniform`, `random.gauss` as explicit
  oracle streams passed in as arguments and universally quantified;
* the TimescaleDB queries executed by the services (range scans,
  `time_bucket` group-bys with `first`/`last`/`max`/`min`/`sum`
  aggregates, `ON CONFLICT` upserts) are embedded by their documented
  SQL semantics over an in-memory list of rows.
-/

namespace AlphaChart

/-- Python `a or b` for float-valued `a`: `a` unless it is falsy (`0.0`). -/
def pyOr (a b : ℚ) : ℚ := if a = 0 then b else a

/-- A row of the `market_data` hypertable (also the dict shape returned by
`MarketDataService.get_bars`).  The `open` column is called `open_`
because `open` is a Lean keyword. -/
structure Row where
  time : ℤ
  symbol : String
  timeframe : String
  open_ : ℚ
  high : ℚ
  low : ℚ
  close : ℚ
  volume : ℚ
  bid_volume : Option ℚ := none
  ask_volume : Option ℚ := none
  number_of_trades : Option ℤ := none
  open_interest : Option ℚ := none
deriving DecidableEq

/-- The in-memory model of the `market_data` table. -/
abbrev Store := List Row

/-- `ORDER BY time DESC` comparison on rows. -/
def timeDescR (a b : Row) : Prop := b.time ≤ a.time

instance : DecidableRel timeDescR := fun a b => inferInstanceAs (Decidable (b.time ≤ a.time))

instance : IsTotal Row timeDescR := ⟨fun a b => le_total b.time a.time⟩

instance : IsTrans Row timeDescR := ⟨fun _ _ _ h1 h2 => le_trans h2 h1⟩

/-- `ORDER BY time ASC` comparison on rows. -/
def timeAscR (a b : Row) : Prop := a.time ≤ b.time

instance : DecidableRel timeAscR := fun a b => inferInstanceAs (Decidable (a.time ≤ b.time))

instance : IsTotal Row timeAscR := ⟨fun a b => le_total a.time b.time⟩

instance : IsTrans Row timeAscR := ⟨fun _ _ _ h1 h2 => le_trans h1 h2⟩

/-- `ORDER BY bucket DESC` comparison on bucket timestamps. -/
def descZ (a b : ℤ) : Prop := b ≤ a

instance : DecidableRel descZ := fun a b => inferInstanceAs (Decidable (b ≤ a))

instance : IsTotal ℤ descZ := ⟨fun a b => le_total b a⟩

instance : IsTrans ℤ descZ := ⟨fun _ _ _ h1 h2 => le_trans h2 h1⟩

/-- `SELECT ... WHERE symbol = $1 AND timeframe = $2 ORDER BY time DESC LIMIT $3`. -/
def fetchDesc (store : Store) (symbol timeframe : String) (limit : ℕ) : List Row :=
  ((store.filter fun r => decide (r.symbol = symbol ∧ r.timeframe = timeframe)).insertionSort
    timeDescR).take limit

/-- `MarketDataService._parse_timeframe`, with the `timedelta` expressed in
seconds; unrecognized values fall back to one minute. -/
def parseTimeframe (tf : String) : ℕ :=
  if tf = "1s" then 1
  else if tf = "1m" then 60
  else if tf = "5m" then 300
  else if tf = "15m" then 900
  else if tf = "1h" then 3600
  else if tf = "4h" then 14400
  else if tf = "1d" then 86400
  else 60

/-- TimescaleDB `time_bucket(dur, t)`: floor `t` to a multiple of `dur`
(epoch-aligned, since every duration produced by `parseTimeframe` divides
a whole number of days). -/
def bucketOf (dur : ℕ) (t : ℤ) : ℤ := (dur : ℤ) * Int.fdiv t (dur : ℤ)

/-- SQL `SUM` over a nullable numeric column: `NULL`s are skipped and the
sum of an all-`NULL` column is `NULL`. -/
def osum (l : List (Option ℚ)) : Option ℚ :=
  match l.filterMap id with
  | [] => none
  | x :: xs => some (x :: xs).sum

/-- SQL `SUM` over the nullable integer `number_of_trades` column. -/
def osumZ (l : List (Option ℤ)) : Option ℤ :=
  match l.filterMap id with
  | [] => none
  | x :: xs => some (x :: xs).sum

/-- SQL `MAX` aggregate over a group. -/
def aggMax : List ℚ → Option ℚ
  | [] => none
  | x :: xs => some (xs.foldl max x)

/-- SQL `MIN` aggregate over a group. -/
def aggMin : List ℚ → Option ℚ
  | [] => none
  | x :: xs => some (xs.foldl min x)

/-- The rows of one `time_bucket` group. -/
def bucketGroup (dur : ℕ) (b : ℤ) (rows : List Row) : List Row :=
  rows.filter fun r => decide (bucketOf dur r.time = b)

/-- One aggregated output row of the `time_bucket` query in
`MarketDataService.get_bars`: `first(open, time)`, `max(high)`, `min(low)`,
`last(close, time)`, sums of the volume columns, `last(open_interest, time)`
(TimescaleDB `first`/`last` ignore `NULL` values of the value column). -/
def aggBucket (symbol tf : String) (dur : ℕ) (b : ℤ) (rows : List Row) : Row :=
  let g := bucketGroup dur b rows
  let sorted := g.insertionSort timeAscR
  { time := b
    symbol := symbol
    timeframe := tf
    open_ := ((sorted.head?).map Row.open_).getD 0
    high := (aggMax (g.map Row.high)).getD 0
    low := (aggMin (g.map Row.low)).getD 0
    close := ((sorted.getLast?).map Row.close).getD 0
    volume := (g.map Row.volume).sum
    bid_volume := osum (g.map Row.bid_volume)
    ask_volume := osum (g.map Row.ask_volume)
    number_of_trades := osumZ (g.map Row.number_of_trades)
    open_interest := (sorted.filterMap Row.open_interest).getLast? }

/-- The base-resolution rows feeding aggregation:
`WHERE symbol = $2 AND timeframe = '1s'`. -/
def baseRows (store : Store) (symbol : String) : List Row :=
  store.filter fun r => decide (r.symbol = symbol ∧ r.timeframe = "1s")

/-- The distinct `time_bucket` values of the group-by, newest first,
limited: `GROUP BY bucket ORDER BY bucket DESC LIMIT $4`. -/
def bucketsDesc (dur : ℕ) (rows : List Row) (limit : ℕ) : List ℤ :=
  (((rows.map fun r => bucketOf dur r.time).dedup).insertionSort descZ).take limit

/-- `MarketDataService.get_bars`: a direct descending range scan at the
base resolution, otherwise an on-the-fly `time_bucket` aggregation of the
symbol's `1s` rows, newest bucket first, at most `limit` buckets. -/
def getBars (store : Store) (symbol tf : String) (limit : ℕ) : List Row :=
  if tf = "1s" then
    fetchDesc store symbol "1s" limit
  else
    let dur := parseTimeframe tf
    let rows := baseRows store symbol
    (bucketsDesc dur rows limit).map fun b => aggBucket symbol tf dur b rows

/-! ## CVD (`OrderFlowService.get_cvd`, `MarketDataService.get_cvd_data`) -/

/-- The dict shape appended by `OrderFlowService.get_cvd`. -/
structure CvdPoint where
  time : ℤ
  delta : ℚ
  cumulativeDelta : ℚ
  volume : ℚ
  bidVolume : ℚ
  askVolume : ℚ
  price : ℚ
deriving DecidableEq

/-- One iteration of the row loop of `OrderFlowService.get_cvd`.
`rand i` is the value of the `random.random()` call for this row (only
consumed when both stored volumes are zero); `acc` is the running
`cumulative_delta`.  `float(row['close'] or 0)` is the identity on `ℚ`. -/
def cvdStep (rand : ℕ → ℚ) (i : ℕ) (acc : ℚ) (r : Row) : CvdPoint :=
  let bid0 := r.bid_volume.getD 0
  let ask0 := r.ask_volume.getD 0
  let total := pyOr r.volume (bid0 + ask0)
  let split := 1/2 + (rand i - 1/2) * (1/5)
  let bidV := if bid0 = 0 ∧ ask0 = 0 then total * split else bid0
  let askV := if bid0 = 0 ∧ ask0 = 0 then total * (1 - split) else ask0
  let delta := askV - bidV
  { time := r.time
    delta := delta
    cumulativeDelta := acc + delta
    volume := total
    bidVolume := bidV
    askVolume := askV
    price := r.close }

/-- The row loop of `OrderFlowService.get_cvd`, threading `cumulative_delta`. -/
def cvdLoop (rand : ℕ → ℚ) : ℕ → ℚ → List Row → List CvdPoint
  | _, _, [] => []
  | i, acc, r :: rs =>
    let p := cvdStep rand i acc r
    p :: cvdLoop rand (i + 1) p.cumulativeDelta rs

/-- The per-symbol base price table shared by all `_generate_sample_*`
helpers. -/
def basePriceOf (symbol : String) : ℚ :=
  if symbol = "XAUUSD" then 2000
  else if symbol = "EURUSD" then 11/10
  else if symbol = "GBPUSD" then 5/4
  else if symbol = "USDJPY" then 150
  else if symbol = "BTCUSD" then 40000
  else 100

/-- The `timeframe_minutes` table of the sample generators (default 1). -/
def timeframeMinutes (tf : String) : ℕ :=
  if tf = "1m" then 1
  else if tf = "5m" then 5
  else if tf = "15m" then 15
  else if tf = "30m" then 30
  else if tf = "1h" then 60
  else if tf = "4h" then 240
  else if tf = "1d" then 1440
  else 1

/-- The random draws and clock reading consumed by
`OrderFlowService._generate_sample_cvd_data`, modelled as oracles for the
realized values. -/
structure SampleRng where
  initCumulative : ℚ
  now : ℤ
  priceGauss : ℕ → ℚ
  volumeUniform : ℕ → ℚ
  deltaGauss : ℕ → ℚ

/-- The `for i in range(limit)` loop of `_generate_sample_cvd_data`;
`n` counts the remaining iterations (`n = limit - i`). -/
def sampleCvdLoop (rng : SampleRng) (tfMin limit : ℕ) :
    ℕ → ℕ → ℚ → ℚ → List CvdPoint
  | _, 0, _, _ => []
  | i, n + 1, base, cum =>
    let base1 := base + rng.priceGauss i
    let volume := rng.volumeUniform i
    let delta := rng.deltaGauss i
    let cum1 := cum + delta
    let askRaw := (volume + |delta|) / 2
    let askV := if delta > 0 then askRaw else volume - askRaw
    let bidV := if delta > 0 then volume - askRaw else askRaw
    { time := rng.now - (60 * tfMin * (limit - i) : ℕ)
      delta := delta
      cumulativeDelta := cum1
      volume := volume
      bidVolume := max 0 bidV
      askVolume := max 0 askV
      price := base1 } :: sampleCvdLoop rng tfMin limit (i + 1) n base1 cum1

/-- `OrderFlowService._generate_sample_cvd_data`: `limit` synthetic points
whose cumulative delta starts at `random.uniform(-10000, 10000)`. -/
def sampleCvd (symbol tf : String) (limit : ℕ) (rng : SampleRng) : List CvdPoint :=
  sampleCvdLoop rng (timeframeMinutes tf) limit 0 limit (basePriceOf symbol) rng.initCumulative

/-- `OrderFlowService.get_cvd`: fetch the `limit` most recent bars for the
exact (symbol, timeframe), fall back to sample data when there are none,
otherwise reverse to chronological order and fold the delta. -/
def getCvd (store : Store) (symbol tf : String) (limit : ℕ) (rand : ℕ → ℚ)
    (rng : SampleRng) : List CvdPoint :=
  let rows := fetchDesc store symbol tf limit
  if rows.isEmpty then sampleCvd symbol tf limit rng
  else cvdLoop rand 0 0 rows.reverse

/-- The dict shape produced by `MarketDataService.get_cvd_data`. -/
structure CvdDataPoint where
  time : ℤ
  delta : ℚ
  cumulative_delta : ℚ
deriving DecidableEq

/-- `ORDER BY bucket ASC` comparison. -/
def ascZ (a b : ℤ) : Prop := a ≤ b

instance : DecidableRel ascZ := fun a b => inferInstanceAs (Decidable (a ≤ b))

instance : IsTotal ℤ ascZ := ⟨fun a b => le_total a b⟩

instance : IsTrans ℤ ascZ := ⟨fun _ _ _ h1 h2 => le_trans h1 h2⟩

/-- The row loop of `MarketDataService.get_cvd_data` over the ascending
bucket list; `row['bid_volume'] or 0` maps the `NULL` sum to `0`. -/
def cvdDataLoop (dur : ℕ) (rows : List Row) : ℚ → List ℤ → List CvdDataPoint
  | _, [] => []
  | cum, b :: bs =>
    let g := bucketGroup dur b rows
    let bidV := (osum (g.map Row.bid_volume)).getD 0
    let askV := (osum (g.map Row.ask_volume)).getD 0
    let delta := askV - bidV
    { time := b, delta := delta, cumulative_delta := cum + delta }
      :: cvdDataLoop dur rows (cum + delta) bs

/-- `MarketDataService.get_cvd_data`: bucket the symbol's `1s` rows in the
time range, ascending by bucket, and fold the per-bucket delta. -/
def getCvdData (store : Store) (symbol tf : String) (startT endT : ℤ) :
    List CvdDataPoint :=
  let dur := parseTimeframe tf
  let rows := (baseRows store symbol).filter fun r =>
    decide (startT ≤ r.time ∧ r.time ≤ endT)
  let buckets := ((rows.map fun r => bucketOf dur r.time).dedup).insertionSort ascZ
  cvdDataLoop dur rows 0 buckets

/-! ## Subscription registry (`WebSocketService`) -/

/-- A live websocket connection identity. -/
abbrev Conn := ℕ

/-- Python `set.add` on a duplicate-free list model of a set. -/
def setAdd {α : Type} [DecidableEq α] (s : List α) (x : α) : List α :=
  if x ∈ s then s else s ++ [x]

/-- Python `set.discard`. -/
def setDiscard {α : Type} [DecidableEq α] (s : List α) (x : α) : List α :=
  s.filter fun y => decide (y ≠ x)

/-- Python `d[k]` lookup (`None` when absent). -/
def dictGet {κ ν : Type} [DecidableEq κ] (d : List (κ × ν)) (k : κ) : Option ν :=
  (d.find? fun p => decide (p.1 = k)).map Prod.snd

/-- Python `k in d`. -/
def dictHas {κ ν : Type} [DecidableEq κ] (d : List (κ × ν)) (k : κ) : Bool :=
  (dictGet d k).isSome

/-- Python `d[k] = v`: overwrite in place, else append. -/
def dictSet {κ ν : Type} [DecidableEq κ] (d : List (κ × ν)) (k : κ) (v : ν) :
    List (κ × ν) :=
  if dictHas d k then d.map fun p => if p.1 = k then (k, v) else p
  else d ++ [(k, v)]

/-- Python `del d[k]`. -/
def dictDel {κ ν : Type} [DecidableEq κ] (d : List (κ × ν)) (k : κ) : List (κ × ν) :=
  d.filter fun p => decide (p.1 ≠ k)

/-- The two dicts of `WebSocketService`: `active_connections` maps a symbol
to its subscriber set, `socket_subscriptions` maps a connection to the
symbols it follows. -/
structure WSState where
  active_connections : List (String × List Conn)
  socket_subscriptions : List (Conn × List String)
deriving DecidableEq

def WSState.empty : WSState := ⟨[], []⟩

/-- `WebSocketService.connect`: register the connection with an empty
symbol set. -/
def wsConnect (st : WSState) (ws : Conn) : WSState :=
  { st with socket_subscriptions := dictSet st.socket_subscriptions ws [] }

/-- One symbol step of `WebSocketService.subscribe`; raises `KeyError`
(modelled as `Except.error`) when the connection was never connected. -/
def wsSubscribeSym (st : WSState) (ws : Conn) (s : String) : Except Unit WSState :=
  let ac0 := if dictHas st.active_connections s then st.active_connections
             else dictSet st.active_connections s []
  let ac1 := dictSet ac0 s (setAdd ((dictGet ac0 s).getD []) ws)
  match dictGet st.socket_subscriptions ws with
  | none => .error ()
  | some syms =>
      .ok { active_connections := ac1
            socket_subscriptions := dictSet st.socket_subscriptions ws (setAdd syms s) }

/-- `WebSocketService.subscribe` over a symbol list. -/
def wsSubscribe (st : WSState) (ws : Conn) (symbols : List String) :
    Except Unit WSState :=
  symbols.foldlM (fun acc s => wsSubscribeSym acc ws s) st

/-- One symbol step of `WebSocketService.unsubscribe`: `discard` from the
symbol's subscriber set (the dict entry is kept even when the set becomes
empty) and from the connection's own set. -/
def wsUnsubscribeSym (st : WSState) (ws : Conn) (s : String) : WSState :=
  let ac := match dictGet st.active_connections s with
    | none => st.active_connections
    | some conns => dictSet st.active_connections s (setDiscard conns ws)
  let subs := match dictGet st.socket_subscriptions ws with
    | none => st.socket_subscriptions
    | some syms => dictSet st.socket_subscriptions ws (setDiscard syms s)
  ⟨ac, subs⟩

/-- `WebSocketService.unsubscribe` over a symbol list. -/
def wsUnsubscribe (st : WSState) (ws : Conn) (symbols : List String) : WSState :=
  symbols.foldl (fun acc s => wsUnsubscribeSym acc ws s) st

/-- One symbol step of `WebSocketService.disconnect`: discard the
connection and delete the entry when its subscriber set becomes empty. -/
def wsDisconnectSym (ac : List (String × List Conn)) (ws : Conn) (s : String) :
    List (String × List Conn) :=
  match dictGet ac s with
  | none => ac
  | some conns =>
    let conns1 := setDiscard conns ws
    if conns1.isEmpty then dictDel ac s else dictSet ac s conns1

/-- `WebSocketService.disconnect`. -/
def wsDisconnect (st : WSState) (ws : Conn) : WSState :=
  match dictGet st.socket_subscriptions ws with
  | none => st
  | some syms =>
    { active_connections := syms.foldl (fun ac s => wsDisconnectSym ac ws s) st.active_connections
      socket_subscriptions := dictDel st.socket_subscriptions ws }

/-- `WebSocketService.broadcast_to_symbol`: create one send task per
subscribed connection and `asyncio.gather(..., return_exceptions=True)`
them, so every send is attempted and a failing send never aborts the
others.  `sendOk c` is the outcome of the send to `c`; the result lists
every attempted `(connection, outcome)` pair. -/
def wsBroadcast (st : WSState) (symbol : String) (sendOk : Conn → Bool) :
    List (Conn × Bool) :=
  match dictGet st.active_connections symbol with
  | none => []
  | some conns => conns.map fun c => (c, sendOk c)

/-! ## Volume profile (`VolumeProfileService.get_session_profile`) -/

/-- A row of the `volume_profile` table (its volume columns are inserted
with `or 0` and are never `NULL`). -/
structure VPRow where
  time : ℤ
  symbol : String
  price_level : ℚ
  volume : ℚ
  bid_volume : ℚ
  ask_volume : ℚ
deriving DecidableEq

/-- `ORDER BY price_level DESC` comparison. -/
def descQ (a b : ℚ) : Prop := b ≤ a

instance : DecidableRel descQ := fun a b => inferInstanceAs (Decidable (b ≤ a))

instance : IsTotal ℚ descQ := ⟨fun a b => le_total b a⟩

instance : IsTrans ℚ descQ := ⟨fun _ _ _ h1 h2 => le_trans h2 h1⟩

/-- One output row of the price-level group-by in `get_session_profile`. -/
structure VPGroup where
  price_level : ℚ
  total_volume : ℚ
  total_bid : ℚ
  total_ask : ℚ
deriving DecidableEq

/-- The `GROUP BY price_level ... ORDER BY price_level DESC` query of
`get_session_profile`. -/
def vpGroups (vp : List VPRow) (symbol : String) (startT endT : ℤ) : List VPGroup :=
  let rows := vp.filter fun r =>
    decide (r.symbol = symbol ∧ startT ≤ r.time ∧ r.time ≤ endT)
  let prices := ((rows.map VPRow.price_level).dedup).insertionSort descQ
  prices.map fun p =>
    let g := rows.filter fun r => decide (r.price_level = p)
    { price_level := p
      total_volume := (g.map VPRow.volume).sum
      total_bid := (g.map VPRow.bid_volume).sum
      total_ask := (g.map VPRow.ask_volume).sum }

/-- A Python float that may be `float('inf')`. -/
inductive PyFloat where
  | val (q : ℚ)
  | posInf
deriving DecidableEq

/-- `ask_volume / bid_volume if bid_volume > 0 else float('inf')` — the
guarded division shared by the real path of `get_session_profile` and by
`_generate_sample_volume_profile`. -/
def buySellRatioOf (bidV askV : ℚ) : PyFloat :=
  if bidV > 0 then .val (askV / bidV) else .posInf

/-- The `'ask' / 'bid' / 'neutral'` classification; `inf > 1.2` is true in
IEEE float comparison. -/
def profileTypeOf (r : PyFloat) : String :=
  match r with
  | .posInf => "ask"
  | .val q => if q > 6/5 then "ask" else if q < 4/5 then "bid" else "neutral"

/-- The dict shape returned by `get_session_profile`. -/
structure ProfileLevel where
  price : ℚ
  volume : ℚ
  bidVolume : ℚ
  askVolume : ℚ
  percent : ℚ
  buySellRatio : PyFloat
  type : String
deriving DecidableEq

/-- The per-level finalization of the real-data path of
`get_session_profile`: 50/50 split when both stored volumes are zero,
percent of total, guarded buy/sell ratio. -/
def mkProfileLevel (total : ℚ) (g : VPGroup) : ProfileLevel :=
  let bidV := if g.total_bid + g.total_ask = 0 then g.total_volume * (1/2) else g.total_bid
  let askV := if g.total_bid + g.total_ask = 0 then g.total_volume * (1/2) else g.total_ask
  let ratio := buySellRatioOf bidV askV
  { price := g.price_level
    volume := g.total_volume
    bidVolume := bidV
    askVolume := askV
    percent := if total > 0 then g.total_volume / total * 100 else 0
    buySellRatio := ratio
    type := profileTypeOf ratio }

/-- The random draws consumed by `_generate_sample_volume_profile`. -/
structure ProfileRng where
  levelUniform : ℕ → ℚ
  biasGauss : ℕ → ℚ

/-- An entry of `levels_data` inside `_generate_sample_volume_profile`. -/
structure SampleLevel where
  price : ℚ
  volume : ℚ
  bidVolume : ℚ
  askVolume : ℚ
deriving DecidableEq

/-- `ORDER BY price DESC` on profile levels (the final
`profile.sort(key=price, reverse=True)`). -/
def priceDescPL (a b : ProfileLevel) : Prop := b.price ≤ a.price

instance : DecidableRel priceDescPL := fun a b => inferInstanceAs (Decidable (b.price ≤ a.price))

instance : IsTotal ProfileLevel priceDescPL := ⟨fun a b => le_total b.price a.price⟩

instance : IsTrans ProfileLevel priceDescPL := ⟨fun _ _ _ h1 h2 => le_trans h2 h1⟩

/-- The `levels_data` generation loop of `_generate_sample_volume_profile`
for a price band `[minP, maxP]` (callers guarantee `maxP ≠ minP`). -/
def sampleProfileLevels (symbol : String) (minP maxP : ℚ) (rng : ProfileRng) :
    List SampleLevel :=
  let base := basePriceOf symbol
  let step := (maxP - minP) / 50
  (List.range 50).map fun (i : ℕ) =>
    let price := minP + (i : ℚ) * step
    let dist := |price - base| / (maxP - minP)
    let weight := max (1/10) (1 - dist * 2)
    let lv := rng.levelUniform i * weight
    let askRatio := max (1/5) (min (4/5) (1/2 + rng.biasGauss i))
    { price := price
      volume := lv
      bidVolume := lv * (1 - askRatio)
      askVolume := lv * askRatio }

/-- The finalization loop of `_generate_sample_volume_profile`: percent of
total and the same guarded buy/sell ratio as the real path. -/
def sampleFinalize (total : ℚ) (l : SampleLevel) : ProfileLevel :=
  let ratio := buySellRatioOf l.bidVolume l.askVolume
  { price := l.price
    volume := l.volume
    bidVolume := l.bidVolume
    askVolume := l.askVolume
    percent := if total > 0 then l.volume / total * 100 else 0
    buySellRatio := ratio
    type := profileTypeOf ratio }

/-- `_generate_sample_volume_profile` over a fixed price band. -/
def sampleProfileCore (symbol : String) (minP maxP : ℚ) (rng : ProfileRng) :
    List ProfileLevel :=
  let levels := sampleProfileLevels symbol minP maxP rng
  let total := (levels.map SampleLevel.volume).sum
  ((levels.map fun l => sampleFinalize total l).insertionSort priceDescPL)

/-- `_generate_sample_volume_profile`: the price band comes from the
supplied market closes when there are any, else it is a synthetic 1% band
around the base price.  When the closes are all equal the Python body
divides by `max_price - min_price = 0`; the service's outer handler
catches the `ZeroDivisionError` and re-enters the generator with no
market data, which uses the synthetic band. -/
def sampleVolumeProfile (symbol : String) (closes : List ℚ) (rng : ProfileRng) :
    List ProfileLevel :=
  let base := basePriceOf symbol
  let synthMin := base - base * (1/100) / 2
  let synthMax := base + base * (1/100) / 2
  match closes with
  | [] => sampleProfileCore symbol synthMin synthMax rng
  | c :: cs =>
    let mn := cs.foldl min c
    let mx := cs.foldl max c
    if mx = mn then sampleProfileCore symbol synthMin synthMax rng
    else sampleProfileCore symbol mn mx rng

/-- `VolumeProfileService.get_session_profile`: aggregate the
`volume_profile` rows per price level; when there are none, fall back to a
sample profile built from the newest 100 market-data closes in range. -/
def getSessionProfile (vp : List VPRow) (store : Store) (symbol : String)
    (startT endT : ℤ) (rng : ProfileRng) : List ProfileLevel :=
  let groups := vpGroups vp symbol startT endT
  if groups.isEmpty then
    let mdRows := ((store.filter fun r =>
      decide (r.symbol = symbol ∧ startT ≤ r.time ∧ r.time ≤ endT)).insertionSort
        timeDescR).take 100
    sampleVolumeProfile symbol (mdRows.map Row.close) rng
  else
    let total := (groups.map VPGroup.total_volume).sum
    groups.map fun g => mkProfileLevel total g

/-! ## Footprint (`OrderFlowService.get_footprint`) and diagonal
imbalances (`OrderFlowService.detect_imbalances`) -/

/-- The dict shape appended by `OrderFlowService.get_footprint`; the
`timestamp` field holds the bar time (an isoformat string in Python). -/
structure FEntry where
  timestamp : ℤ
  price : ℚ
  bidVolume : ℚ
  askVolume : ℚ
  delta : ℚ
  imbalanceRatio : ℚ
  totalVolume : ℚ
deriving DecidableEq

/-- The number of iterations of the `while price <= high_price` loop of
`get_footprint` for exact arithmetic: prices `low + k * step`; zero
iterations when `high < low`, otherwise `floor((high-low)/step) + 1`
(callers only reach this with `step > 0`). -/
def levelCount (low high step : ℚ) : ℕ :=
  if high < low then 0 else ((high - low) / step).floor.toNat + 1

/-- The synthetic price-level loop of `get_footprint` for one bar.
`rf k` is the `random.random()` draw for the level's `volume_factor`,
`rb k` the draw for its `bid_ratio`. -/
def footprintLevels (rf rb : ℕ → ℚ) (time : ℤ) (high low close totalVol : ℚ) :
    List FEntry :=
  let step0 := (high - low) / 20
  let step := if step0 = 0 then 1/100 else step0
  (List.range (levelCount low high step)).map fun (k : ℕ) =>
    let price := low + (k : ℚ) * step
    let priceDistance := |price - close| / (high - low)
    let weight := max (1/10) (1 - priceDistance)
    let factor := 1/2 + rf k * (1/2)
    let lv := (totalVol / 20) * weight * factor
    let bidRatio := if price > close then 3/5 + rb k * (1/5) else 3/10 + rb k * (1/5)
    let bidV := lv * bidRatio
    let askV := lv * (1 - bidRatio)
    let imb := if min bidV askV > 0 then max bidV askV / min bidV askV else 1
    { timestamp := time
      price := price
      bidVolume := bidV
      askVolume := askV
      delta := askV - bidV
      imbalanceRatio := imb
      totalVolume := lv }

/-- One bar's footprint.  When `high = low` the Python body divides by
`high_price - low_price = 0` (`ZeroDivisionError`), modelled as an error;
`float(bar['volume'] or 1000)` supplies the default total volume. -/
def barFootprint (rf rb : ℕ → ℚ) (bar : Row) : Except Unit (List FEntry) :=
  if bar.high = bar.low then .error ()
  else .ok (footprintLevels rf rb bar.time bar.high bar.low bar.close
    (pyOr bar.volume 1000))

/-- The bar loop of `get_footprint`; an exception on any bar aborts the
whole computation (the service's `try` block spans all bars). -/
def footprintBars (rf rb : ℕ → ℕ → ℚ) : ℕ → List Row → Except Unit (List FEntry)
  | _, [] => .ok []
  | i, b :: bs => do
    let l ← barFootprint (rf i) (rb i) b
    let rest ← footprintBars rf rb (i + 1) bs
    pure (l ++ rest)

/-- The random draws and clock reading consumed by
`OrderFlowService._generate_sample_footprint_data`. -/
structure FootprintRng where
  now : ℤ
  lowGauss : ℕ → ℚ
  closeUniform : ℕ → ℚ
  levelUniform : ℕ → ℕ → ℚ
  bidRandom : ℕ → ℕ → ℚ

/-- `OrderFlowService._generate_sample_footprint_data`: `limit` synthetic
bars of 20 price levels each around the symbol's base price. -/
def sampleFootprint (symbol tf : String) (limit : ℕ) (rng : FootprintRng) :
    List FEntry :=
  let base := basePriceOf symbol
  let tfMin := timeframeMinutes tf
  let range := base * (2/1000)
  ((List.range limit).map fun (i : ℕ) =>
    let time := rng.now - (60 * tfMin * (limit - i) : ℕ)
    let low := base + rng.lowGauss i
    let high := low + range
    let close := low + rng.closeUniform i
    let step := (high - low) / 20
    (List.range 20).map fun (j : ℕ) =>
      let price := low + (j : ℚ) * step
      let dist := |price - close| / (high - low)
      let weight := max (1/5) (1 - dist)
      let lv := rng.levelUniform i j * weight
      let bidRatio := if price > close then 3/5 + rng.bidRandom i j * (1/5)
                      else 3/10 + rng.bidRandom i j * (1/5)
      let bidV := lv * bidRatio
      let askV := lv * (1 - bidRatio)
      let imb := if min bidV askV > 0 then max bidV askV / min bidV askV else 1
      { timestamp := time
        price := price
        bidVolume := bidV
        askVolume := askV
        delta := askV - bidV
        imbalanceRatio := imb
        totalVolume := lv }).flatten

/-- `OrderFlowService.get_footprint`: sample data when the symbol has no
bars or when the synthetic distribution raises (`except` branch). -/
def getFootprint (store : Store) (symbol tf : String) (limit : ℕ)
    (rf rb : ℕ → ℕ → ℚ) (srng : FootprintRng) : List FEntry :=
  let bars := fetchDesc store symbol tf limit
  if bars.isEmpty then sampleFootprint symbol tf limit srng
  else
    match footprintBars rf rb 0 bars with
    | .ok l => l
    | .error _ => sampleFootprint symbol tf limit srng

/-- A dynamically-typed Python value, as passed between
`get_footprint` and `detect_imbalances` (both exchange plain dicts). -/
inductive PyVal where
  | q (x : ℚ)
  | s (x : String)
  | arr (xs : List PyVal)
  | dict (fields : List (String × PyVal))

/-- A Python dict with string keys. -/
abbrev PyDict := List (String × PyVal)

/-- The runtime errors `detect_imbalances` can raise. -/
inductive PyErr where
  | keyError (k : String)
  | typeError
deriving DecidableEq

/-- Python `d[k]`: `KeyError` when the key is absent. -/
def pyGet (d : PyDict) (k : String) : Except PyErr PyVal :=
  match dictGet d k with
  | some v => .ok v
  | none => .error (.keyError k)

/-- `d[k]` where a numeric value is consumed. -/
def pyGetQ (d : PyDict) (k : String) : Except PyErr ℚ := do
  match ← pyGet d k with
  | .q x => pure x
  | _ => .error .typeError

/-- The dict literally appended by `get_footprint` for one price level. -/
def FEntry.toDict (e : FEntry) : PyDict :=
  [("timestamp", .s (toString e.timestamp)),
   ("price", .q e.price),
   ("bidVolume", .q e.bidVolume),
   ("askVolume", .q e.askVolume),
   ("delta", .q e.delta),
   ("imbalanceRatio", .q e.imbalanceRatio),
   ("totalVolume", .q e.totalVolume)]

/-- The adjacent-pair scan of `detect_imbalances` over one bar's levels
(sorted price descending): `curr['ask'] > next['bid'] * ratio` with both
strictly positive flags a buy imbalance, `next['bid'] > curr['ask'] * ratio`
with both strictly positive independently flags a sell imbalance. -/
def scanPairs (ratio : ℚ) : List PyDict → Except PyErr (List PyDict)
  | [] => .ok []
  | [_] => .ok []
  | curr :: next :: rest => do
    let ca ← pyGetQ curr "ask"
    let nb ← pyGetQ next "bid"
    let buys ← if ca > nb * ratio ∧ ca > 0 ∧ nb > 0 then do
        let p ← pyGetQ curr "price"
        pure [[("type", PyVal.s "buy"), ("price", PyVal.q p),
               ("volume", PyVal.q ca), ("compared_to", PyVal.q nb)]]
      else pure ([] : List PyDict)
    let sells ← if nb > ca * ratio ∧ nb > 0 ∧ ca > 0 then do
        let p ← pyGetQ next "price"
        pure [[("type", PyVal.s "sell"), ("price", PyVal.q p),
               ("volume", PyVal.q nb), ("compared_to", PyVal.q ca)]]
      else pure ([] : List PyDict)
    let tail1 ← scanPairs ratio (next :: rest)
    pure (buys ++ sells ++ tail1)

/-- The bar loop of `detect_imbalances`: each bar dict is asked for its
`'levels'` list, the pairs are scanned, and bars with no qualifying pair
are dropped. -/
def imbalanceBars (ratio : ℚ) : List PyDict → Except PyErr (List PyDict)
  | [] => .ok []
  | bar :: bars => do
    let levelsVal ← pyGet bar "levels"
    let levels ← match levelsVal with
      | .arr xs => xs.mapM fun v =>
          match v with
          | .dict d => Except.ok d
          | _ => Except.error PyErr.typeError
      | _ => .error .typeError
    let barImb ← scanPairs ratio levels
    let rest ← imbalanceBars ratio bars
    if barImb.isEmpty then pure rest
    else do
      let ts ← pyGet bar "timestamp"
      pure ([("timestamp", ts), ("imbalances", PyVal.arr (barImb.map PyVal.dict))] :: rest)

/-- `OrderFlowService.detect_imbalances`: runs `get_footprint` and scans
the dicts it actually returns. -/
def detectImbalances (store : Store) (symbol tf : String) (limit : ℕ) (ratio : ℚ)
    (rf rb : ℕ → ℕ → ℚ) (srng : FootprintRng) : Except PyErr (List PyDict) :=
  imbalanceBars ratio ((getFootprint store symbol tf limit rf rb srng).map FEntry.toDict)

/-! ## Ingestion (`MarketDataService.store_bar`, `store_batch`) -/

/-- The `(time, symbol, timeframe)` identity key. -/
def rowKey (r : Row) : ℤ × String × String := (r.time, r.symbol, r.timeframe)

/-- `store_bar`'s `INSERT ... ON CONFLICT (time, symbol, timeframe) DO
UPDATE SET ...`: every non-key column of an existing row is overwritten,
otherwise the row is inserted. -/
def storeBar (store : Store) (b : Row) : Store :=
  if store.any fun r => decide (rowKey r = rowKey b) then
    store.map fun r => if rowKey r = rowKey b then b else r
  else store ++ [b]

/-- One insert of `store_batch`'s `INSERT ... ON CONFLICT DO NOTHING`. -/
def storeBatchInsert (store : Store) (b : Row) : Store :=
  if store.any fun r => decide (rowKey r = rowKey b) then store else store ++ [b]

/-- `store_batch` over the delivered bars. -/
def storeBatch (store : Store) (bars : List Row) : Store :=
  bars.foldl storeBatchInsert store

/-- The first row with the given key, as a range query would return it. -/
def storeLookup (store : Store) (k : ℤ × String × String) : Option Row :=
  store.find? fun r => decide (rowKey r = k)

/-! ## Spec-modelled volume-profile builder (§4.3)

The source repository contains no point-of-control / value-area
computation (`get_session_profile` returns only per-level sums), so the
builder below is modelled from the spec. -/

/-- Modelled from the spec: a price level of the §4.3 `build_profile`
algorithm, carrying its summed volume. -/
structure SpecLevel where
  price : ℚ
  volume : ℚ
deriving DecidableEq

/-- Modelled from the spec: the sort order of §4.3 step 3 — volume
descending, ties broken by the higher price (the documented
point-of-control tie-break). -/
def volDescR (a b : SpecLevel) : Prop :=
  b.volume < a.volume ∨ (b.volume = a.volume ∧ b.price ≤ a.price)

instance : DecidableRel volDescR := fun a b =>
  inferInstanceAs (Decidable (b.volume < a.volume ∨ (b.volume = a.volume ∧ b.price ≤ a.price)))

instance : IsTotal SpecLevel volDescR := by
  constructor
  intro a b
  rcases lt_trichotomy b.volume a.volume with h | h | h
  · exact Or.inl (Or.inl h)
  · rcases le_total b.price a.price with hp | hp
    · exact Or.inl (Or.inr ⟨h, hp⟩)
    · exact Or.inr (Or.inr ⟨h.symm, hp⟩)
  · exact Or.inr (Or.inl h)

instance : IsTrans SpecLevel volDescR := by
  constructor
  intro a b c hab hbc
  rcases hab with h1 | ⟨h1, h1p⟩
  · rcases hbc with h2 | ⟨h2, _⟩
    · exact Or.inl (h2.trans h1)
    · exact Or.inl (h2 ▸ h1)
  · rcases hbc with h2 | ⟨h2, h2p⟩
    · exact Or.inl (h1 ▸ h2)
    · exact Or.inr ⟨h2.trans h1, h2p.trans h1p⟩

/-- Modelled from the spec: §4.3 step 3 greedy accumulation — walk the
volume-descending levels, adding levels until the running sum reaches the
target. -/
def valueAreaSelect (target : ℚ) : ℚ → List SpecLevel → List SpecLevel
  | _, [] => []
  | acc, l :: ls =>
    l :: (if target ≤ acc + l.volume then [] else valueAreaSelect target (acc + l.volume) ls)

/-- Modelled from the spec: the §3 `VolumeProfile` record. -/
structure VolumeProfileSpec where
  levels : List SpecLevel
  point_of_control : ℚ
  value_area_high : ℚ
  value_area_low : ℚ
  total_volume : ℚ
deriving DecidableEq

/-- Modelled from the spec: `build_profile` of §4.3, absent from the
source — point of control (max volume, ties to the higher price), greedy
70% value area with min/max price bounds, value-area bounds defaulting to
0 when the total volume is 0. -/
def buildProfile (levels : List SpecLevel) : VolumeProfileSpec :=
  let total := (levels.map SpecLevel.volume).sum
  let sorted := levels.insertionSort volDescR
  let poc := ((sorted.head?).map SpecLevel.price).getD 0
  let selected := valueAreaSelect (7/10 * total) 0 sorted
  { levels := levels
    point_of_control := poc
    value_area_high := if total = 0 then 0 else (aggMax (selected.map SpecLevel.price)).getD 0
    value_area_low := if total = 0 then 0 else (aggMin (selected.map SpecLevel.price)).getD 0
    total_volume := total }

/-! ## Helper lemmas -/

/-- `d[k] = v` keeps the key sequence when `k` is already present. -/
theorem dictSet_keys_of_has {κ ν : Type} [DecidableEq κ] (d : List (κ × ν)) (k : κ) (v : ν)
    (h : dictHas d k = true) : (dictSet d k v).map Prod.fst = d.map Prod.fst := by
  unfold dictSet
  rw [if_pos h, List.map_map]
  refine List.map_congr_left fun p _ => ?_
  by_cases hp : p.1 = k
  · simp [Function.comp, hp]
  · simp [Function.comp, hp]

/-- `unsubscribe` never adds or removes a symbol key. -/
theorem wsUnsubscribeSym_keys (st : WSState) (ws : Conn) (s : String) :
    ((wsUnsubscribeSym st ws s).active_connections).map Prod.fst =
      st.active_connections.map Prod.fst := by
  unfold wsUnsubscribeSym
  cases hg : dictGet st.active_connections s with
  | none => rfl
  | some conns =>
      have hh : dictHas st.active_connections s = true := by
        unfold dictHas
        rw [hg]
        rfl
      simpa using dictSet_keys_of_has st.active_connections s _ hh

theorem wsUnsubscribe_keys (st : WSState) (ws : Conn) (symbols : List String) :
    ((wsUnsubscribe st ws symbols).active_connections).map Prod.fst =
      st.active_connections.map Prod.fst := by
  induction symbols generalizing st with
  | nil => rfl
  | cons s ss ih =>
      unfold wsUnsubscribe at ih ⊢
      rw [List.foldl_cons, ih, wsUnsubscribeSym_keys]

/-- `get_footprint`'s level dicts contain no `'levels'` key. -/
theorem pyGet_toDict_levels (e : FEntry) :
    pyGet (FEntry.toDict e) "levels" = .error (.keyError "levels") := rfl

/-- On any nonempty list of `get_footprint`-shaped dicts the bar loop of
`detect_imbalances` raises `KeyError('levels')` at its first bar. -/
theorem imbalanceBars_toDict_cons (ratio : ℚ) (l : List FEntry) (h : l ≠ []) :
    imbalanceBars ratio (l.map FEntry.toDict) = .error (.keyError "levels") := by
  cases l with
  | nil => exact absurd rfl h
  | cons e es =>
      simp [imbalanceBars, pyGet_toDict_levels, Bind.bind, Monad.toBind,
        Except.instMonad, Except.bind, Except.pure]

/-! ## Claim theorems -/

/-- C8: `broadcast_to_symbol` attempts the send to every connection
subscribed to the symbol at call time, whatever the per-connection send
outcomes are (so one failing send never suppresses delivery to the rest);
and in the spec scenario a connection subscribed to `XAUUSD` is delivered
exactly one message (delivery list `[7]`) by one broadcast, and nothing
(delivery list `[]`) after it unsubscribes. -/
theorem C8_broadcast_delivery :
    (∀ (st : WSState) (symbol : String) (sendOk : Conn → Bool),
      (wsBroadcast st symbol sendOk).map Prod.fst =
        (dictGet st.active_connections symbol).getD []) ∧
    (∀ sendOk : Conn → Bool,
      wsSubscribe (wsConnect WSState.empty 7) 7 ["XAUUSD"] =
        .ok ⟨[("XAUUSD", [7])], [(7, ["XAUUSD"])]⟩ ∧
      (wsBroadcast ⟨[("XAUUSD", [7])], [(7, ["XAUUSD"])]⟩ "XAUUSD" sendOk).map Prod.fst = [7] ∧
      (wsBroadcast (wsUnsubscribe ⟨[("XAUUSD", [7])], [(7, ["XAUUSD"])]⟩ 7 ["XAUUSD"])
        "XAUUSD" sendOk).map Prod.fst = []) := by
  constructor
  · intro st symbol sendOk
    unfold wsBroadcast
    cases hg : dictGet st.active_connections symbol with
    | none => simp [hg]
    | some conns =>
        simp only [hg, List.map_map, Option.getD_some]
        exact List.map_id conns
  · intro sendOk
    exact ⟨rfl, rfl, rfl⟩

/-- C9 counterexample: `unsubscribe` does **not** remove the symbol's
subscriber-set entry when it becomes empty — after connect, subscribe to
`"X"` and unsubscribe from `"X"`, the registry still maps `"X"` to the
empty subscriber set, refuting the claimed invariant. -/
theorem C9_counterexample_empty_entry_persists :
    wsSubscribe (wsConnect WSState.empty 7) 7 ["X"] =
      .ok ⟨[("X", [7])], [(7, ["X"])]⟩ ∧
    (wsUnsubscribe ⟨[("X", [7])], [(7, ["X"])]⟩ 7 ["X"]).active_connections =
      [("X", [])] :=
  ⟨rfl, rfl⟩

/-- C9 amended: `unsubscribe` only empties the symbol's subscriber set and
always leaves the key sequence of the symbol map unchanged; it is
`disconnect` that deletes entries whose subscriber set becomes empty, so
empty subscriber-set entries can persist after `unsubscribe`. -/
theorem C9_amended_unsubscribe_keeps_entries :
    (∀ (st : WSState) (ws : Conn) (symbols : List String),
      ((wsUnsubscribe st ws symbols).active_connections).map Prod.fst =
        st.active_connections.map Prod.fst) ∧
    wsDisconnect ⟨[("X", [7])], [(7, ["X"])]⟩ 7 = ⟨[], []⟩ :=
  ⟨wsUnsubscribe_keys, rfl⟩

/-- C10: a stored price level with zero summed bid volume and positive
summed ask volume makes `get_session_profile` return (no exception) a
level whose `buySellRatio` is `float('inf')`; and the sample-data path's
finalization applies the same guarded division, so a zero-bid level there
also yields `float('inf')`. -/
theorem C10_buy_sell_ratio_infinity :
    getSessionProfile [⟨1, "S", 100, 5, 0, 5⟩] [] "S" 0 10 ⟨fun _ => 0, fun _ => 0⟩ =
      [⟨100, 5, 0, 5, 100, .posInf, "ask"⟩] ∧
    (sampleFinalize 10 ⟨99, 5, 0, 5⟩).buySellRatio = PyFloat.posInf := by
  constructor
  · norm_num [getSessionProfile, vpGroups, mkProfileLevel, buySellRatioOf, profileTypeOf,
      List.insertionSort, List.orderedInsert, List.dedup, List.pairwise_cons]
  · norm_num [sampleFinalize, buySellRatioOf]

/-- C3 (code bug): `detect_imbalances` reads `bar['levels']` (and then
`level['ask']` / `level['bid']`) but `get_footprint` returns a flat list
of level dicts keyed `timestamp/price/bidVolume/askVolume/...` with no
`'levels'` key, so on any symbol with data the call raises
`KeyError('levels')` instead of detecting imbalances.  The intended
adjacent-pair rule, run on levels of the shape the scan expects, does
flag a buy imbalance for `ask=100, bid=20, ratio=3` and nothing for
`bid=40`, matching the spec scenario. -/
theorem C3_detect_imbalances_keyerror :
    detectImbalances [⟨0, "S", "1s", 1, 2, 1, 2, 1000, none, none, none, none⟩]
      "S" "1s" 1 3 (fun _ _ => 1/2) (fun _ _ => 1/2)
      ⟨0, fun _ => 0, fun _ => 0, fun _ _ => 0, fun _ _ => 0⟩ =
      .error (.keyError "levels") ∧
    scanPairs 3 [[("price", .q 110), ("ask", .q 100), ("bid", .q 50)],
                 [("price", .q 109), ("ask", .q 30), ("bid", .q 20)]] =
      .ok [[("type", PyVal.s "buy"), ("price", PyVal.q 110),
            ("volume", PyVal.q 100), ("compared_to", PyVal.q 20)]] ∧
    scanPairs 3 [[("price", .q 110), ("ask", .q 100), ("bid", .q 50)],
                 [("price", .q 109), ("ask", .q 30), ("bid", .q 40)]] =
      .ok [] := by
  refine ⟨?_, ?_, ?_⟩
  · have hfb : footprintBars (fun _ _ => (1:ℚ)/2) (fun _ _ => (1:ℚ)/2) 0
        [⟨0, "S", "1s", 1, 2, 1, 2, 1000, none, none, none, none⟩] =
        .ok (footprintLevels (fun _ => 1/2) (fun _ => 1/2) 0 2 1 2 1000) := by
      norm_num [footprintBars, barFootprint, pyOr, Bind.bind, Monad.toBind,
        Except.instMonad, Except.bind, Except.pure]
    have hfp : getFootprint [⟨0, "S", "1s", 1, 2, 1, 2, 1000, none, none, none, none⟩]
        "S" "1s" 1 (fun _ _ => 1/2) (fun _ _ => 1/2)
        ⟨0, fun _ => 0, fun _ => 0, fun _ _ => 0, fun _ _ => 0⟩ =
        footprintLevels (fun _ => 1/2) (fun _ => 1/2) 0 2 1 2 1000 := by
      norm_num [getFootprint, fetchDesc, List.insertionSort, List.orderedInsert, hfb]
    have hne : footprintLevels (fun _ => (1:ℚ)/2) (fun _ => (1:ℚ)/2) 0 2 1 2 1000 ≠ [] := by
      unfold footprintLevels
      intro hcontra
      rw [List.map_eq_nil_iff, List.range_eq_nil] at hcontra
      norm_num [levelCount] at hcontra
    unfold detectImbalances
    rw [hfp]
    exact imbalanceBars_toDict_cons 3 _ hne
  · have h1 : pyGetQ [("price", PyVal.q 110), ("ask", PyVal.q 100), ("bid", PyVal.q 50)]
        "ask" = Except.ok 100 := rfl
    have h2 : pyGetQ [("price", PyVal.q 109), ("ask", PyVal.q 30), ("bid", PyVal.q 20)]
        "bid" = Except.ok 20 := rfl
    have h3 : pyGetQ [("price", PyVal.q 110), ("ask", PyVal.q 100), ("bid", PyVal.q 50)]
        "price" = Except.ok 110 := rfl
    norm_num [scanPairs, h1, h2, h3, Bind.bind, Monad.toBind, Except.instMonad,
      Except.bind, Except.pure]
  · have h1 : pyGetQ [("price", PyVal.q 110), ("ask", PyVal.q 100), ("bid", PyVal.q 50)]
        "ask" = Except.ok 100 := rfl
    have h2 : pyGetQ [("price", PyVal.q 109), ("ask", PyVal.q 30), ("bid", PyVal.q 40)]
        "bid" = Except.ok 40 := rfl
    norm_num [scanPairs, h1, h2, Bind.bind, Monad.toBind, Except.instMonad,
      Except.bind, Except.pure]

/-- After the upsert the key's row carries exactly the freshly delivered
fields (the matching branch of `storeBar`). -/
theorem find?_map_replace (store : Store) (b : Row)
    (h : store.any (fun r => decide (rowKey r = rowKey b)) = true) :
    (store.map fun r => if rowKey r = rowKey b then b else r).find?
      (fun r => decide (rowKey r = rowKey b)) = some b := by
  induction store with
  | nil => simp at h
  | cons r rs ih =>
      by_cases hr : rowKey r = rowKey b
      · simp [hr]
      · have h1 : rs.any (fun r => decide (rowKey r = rowKey b)) = true := by
          simpa [hr] using h
        simpa [hr] using ih h1

/-- `store_bar` is last-write-wins: the stored row at the bar's key is the
bar itself. -/
theorem storeLookup_storeBar (store : Store) (b : Row) :
    storeLookup (storeBar store b) (rowKey b) = some b := by
  unfold storeBar storeLookup
  by_cases h : store.any (fun r => decide (rowKey r = rowKey b)) = true
  · rw [if_pos h]
    exact find?_map_replace store b h
  · rw [if_neg h, List.find?_append]
    have hnone : store.find? (fun r => decide (rowKey r = rowKey b)) = none := by
      rw [List.find?_eq_none]
      intro r hr
      simp only [List.any_eq_true] at h
      push_neg at h
      simpa using h r hr
    simp [hnone]

/-- The freshly stored bar is a member of the store. -/
theorem mem_storeBar (store : Store) (b : Row) : b ∈ storeBar store b := by
  unfold storeBar
  by_cases h : store.any (fun r => decide (rowKey r = rowKey b)) = true
  · rw [if_pos h]
    simp only [List.any_eq_true, decide_eq_true_eq] at h
    obtain ⟨r, hr, hk⟩ := h
    refine List.mem_map.mpr ⟨r, hr, ?_⟩
    simp [hk]
  · rw [if_neg h]
    simp

/-- `storeBar` grows the store by at most one row. -/
theorem storeBar_length (store : Store) (b : Row) :
    (storeBar store b).length ≤ store.length + 1 := by
  unfold storeBar
  by_cases h : store.any (fun r => decide (rowKey r = rowKey b)) = true
  · simp only [if_pos h, List.length_map]
    exact Nat.le_succ store.length
  · simp [h]

/-- C4 counterexample: `store_batch` re-delivering a bar for an existing
`(time, symbol, timeframe)` key does **not** overwrite the stored OHLCV
fields — `ON CONFLICT DO NOTHING` keeps the old row, refuting
last-write-wins for batch ingestion. -/
theorem C4_counterexample_store_batch_keeps_old :
    storeBatch [⟨0, "S", "1s", 1, 1, 1, 1, 1, none, none, none, none⟩]
        [⟨0, "S", "1s", 2, 2, 2, 2, 2, none, none, none, none⟩] =
      [⟨0, "S", "1s", 1, 1, 1, 1, 1, none, none, none, none⟩] ∧
    (⟨0, "S", "1s", 2, 2, 2, 2, 2, none, none, none, none⟩ : Row).open_ ≠
      (⟨0, "S", "1s", 1, 1, 1, 1, 1, none, none, none, none⟩ : Row).open_ := by
  constructor
  · rfl
  · norm_num

/-- C4 amended: `store_bar` (single-bar ingestion) is idempotent per key
with last-write-wins — the stored row at the key is exactly the delivered
bar (never an accumulation), a second delivery overwrites it, and an
immediate base-resolution query returns the identical bar; `store_batch`,
by contrast, uses `ON CONFLICT DO NOTHING`: a bar whose key already
exists leaves the store unchanged (first-write-wins, still no
accumulation). -/
theorem C4_amended_ingestion (store : Store) (b b2 r : Row) (limit : ℕ) :
    storeLookup (storeBar store b) (rowKey b) = some b ∧
    (rowKey b2 = rowKey b →
      storeLookup (storeBar (storeBar store b) b2) (rowKey b) = some b2) ∧
    (b.timeframe = "1s" → store.length + 1 ≤ limit →
      b ∈ getBars (storeBar store b) b.symbol "1s" limit) ∧
    (storeLookup store (rowKey b) = some r → storeBatch store [b] = store) := by
  refine ⟨storeLookup_storeBar store b, fun hk => ?_, fun htf hlim => ?_, fun hr => ?_⟩
  · rw [← hk]
    exact storeLookup_storeBar (storeBar store b) b2
  · have hmem : b ∈ storeBar store b := mem_storeBar store b
    have hfil : b ∈ (storeBar store b).filter
        (fun row => decide (row.symbol = b.symbol ∧ row.timeframe = "1s")) := by
      rw [List.mem_filter]
      exact ⟨hmem, by simp [htf]⟩
    have hsort : b ∈ ((storeBar store b).filter
        (fun row => decide (row.symbol = b.symbol ∧ row.timeframe = "1s"))).insertionSort
          timeDescR := (List.mem_insertionSort timeDescR).mpr hfil
    have hlen : (((storeBar store b).filter
        (fun row => decide (row.symbol = b.symbol ∧ row.timeframe = "1s"))).insertionSort
          timeDescR).length ≤ limit := by
      rw [List.length_insertionSort]
      calc ((storeBar store b).filter _).length
          ≤ (storeBar store b).length := List.length_filter_le _ _
        _ ≤ store.length + 1 := storeBar_length store b
        _ ≤ limit := hlim
    unfold getBars fetchDesc
    rw [if_pos rfl, List.take_of_length_le hlen]
    exact hsort
  · have : store.any (fun row => decide (rowKey row = rowKey b)) = true := by
      rw [List.any_eq_true]
      refine ⟨r, List.mem_of_find?_eq_some hr, ?_⟩
      have := List.find?_some hr
      simpa using this
    simp [storeBatch, storeBatchInsert, this]

/-- C4 amended, witnessed at a concrete store: key `(0, S, 1s)` holding
`open = 1` is overwritten to `open = 2` by `store_bar`, overwritten again
to `open = 3`, the round-trip query returns the stored bar, and
`store_batch` re-delivery leaves the store unchanged. -/
theorem C4_amended_ingestion_witness :
    storeLookup (storeBar [⟨0, "S", "1s", 1, 1, 1, 1, 1, none, none, none, none⟩]
        ⟨0, "S", "1s", 2, 2, 2, 2, 2, none, none, none, none⟩)
      (rowKey ⟨0, "S", "1s", 2, 2, 2, 2, 2, none, none, none, none⟩) =
      some ⟨0, "S", "1s", 2, 2, 2, 2, 2, none, none, none, none⟩ ∧
    storeLookup (storeBar (storeBar [⟨0, "S", "1s", 1, 1, 1, 1, 1, none, none, none, none⟩]
        ⟨0, "S", "1s", 2, 2, 2, 2, 2, none, none, none, none⟩)
        ⟨0, "S", "1s", 3, 3, 3, 3, 3, none, none, none, none⟩)
      (rowKey ⟨0, "S", "1s", 2, 2, 2, 2, 2, none, none, none, none⟩) =
      some ⟨0, "S", "1s", 3, 3, 3, 3, 3, none, none, none, none⟩ ∧
    (⟨0, "S", "1s", 2, 2, 2, 2, 2, none, none, none, none⟩ : Row) ∈
      getBars (storeBar [⟨0, "S", "1s", 1, 1, 1, 1, 1, none, none, none, none⟩]
        ⟨0, "S", "1s", 2, 2, 2, 2, 2, none, none, none, none⟩) "S" "1s" 2 ∧
    storeBatch [⟨0, "S", "1s", 1, 1, 1, 1, 1, none, none, none, none⟩]
        [⟨0, "S", "1s", 2, 2, 2, 2, 2, none, none, none, none⟩] =
      [⟨0, "S", "1s", 1, 1, 1, 1, 1, none, none, none, none⟩] := by
  have h := C4_amended_ingestion
    [⟨0, "S", "1s", 1, 1, 1, 1, 1, none, none, none, none⟩]
    ⟨0, "S", "1s", 2, 2, 2, 2, 2, none, none, none, none⟩
    ⟨0, "S", "1s", 3, 3, 3, 3, 3, none, none, none, none⟩
    ⟨0, "S", "1s", 1, 1, 1, 1, 1, none, none, none, none⟩ 2
  exact ⟨h.1, h.2.1 rfl, h.2.2.1 rfl (by norm_num), h.2.2.2 rfl⟩

/-- The sample-CVD loop emits one point per remaining iteration. -/
theorem sampleCvdLoop_length (rng : SampleRng) (tfMin limit : ℕ) :
    ∀ (n i : ℕ) (base cum : ℚ),
      (sampleCvdLoop rng tfMin limit i n base cum).length = n := by
  intro n
  induction n with
  | zero => intro i base cum; rfl
  | succ m ih =>
      intro i base cum
      simp only [sampleCvdLoop, List.length_cons]
      rw [ih]

/-- `_generate_sample_cvd_data` returns exactly `limit` points. -/
theorem sampleCvd_length (symbol tf : String) (limit : ℕ) (rng : SampleRng) :
    (sampleCvd symbol tf limit rng).length = limit :=
  sampleCvdLoop_length rng (timeframeMinutes tf) limit limit 0 _ _

/-- `_generate_sample_volume_profile` builds exactly 50 levels per band. -/
theorem sampleProfileCore_length (symbol : String) (minP maxP : ℚ) (rng : ProfileRng) :
    (sampleProfileCore symbol minP maxP rng).length = 50 := by
  unfold sampleProfileCore sampleProfileLevels
  rw [List.length_insertionSort, List.length_map, List.length_map, List.length_range]

/-- `_generate_sample_volume_profile` returns exactly 50 levels. -/
theorem sampleVolumeProfile_length (symbol : String) (closes : List ℚ) (rng : ProfileRng) :
    (sampleVolumeProfile symbol closes rng).length = 50 := by
  unfold sampleVolumeProfile
  cases closes with
  | nil => exact sampleProfileCore_length ..
  | cons c cs =>
      simp only []
      split
      · exact sampleProfileCore_length ..
      · exact sampleProfileCore_length ..

/-- C6 counterexample: for a symbol with no base-resolution data at all,
`get_cvd` and `get_session_profile` return successful, nonempty
synthesized results (3 CVD points for `limit = 3`, 50 profile levels) —
no `NotFound` error is signalled or propagated. -/
theorem C6_counterexample_sample_data_not_notfound :
    (getCvd [] "EURUSD" "1m" 3 (fun _ => 0)
      ⟨0, 0, fun _ => 0, fun _ => 0, fun _ => 0⟩).length = 3 ∧
    (getSessionProfile [] [] "EURUSD" 0 100 ⟨fun _ => 0, fun _ => 0⟩).length = 50 := by
  constructor
  · have h : getCvd [] "EURUSD" "1m" 3 (fun _ => 0)
        ⟨0, 0, fun _ => 0, fun _ => 0, fun _ => 0⟩ =
        sampleCvd "EURUSD" "1m" 3 ⟨0, 0, fun _ => 0, fun _ => 0, fun _ => 0⟩ := by
      unfold getCvd fetchDesc
      simp [List.insertionSort]
    rw [h, sampleCvd_length]
  · have h : getSessionProfile [] [] "EURUSD" 0 100 ⟨fun _ => 0, fun _ => 0⟩ =
        sampleVolumeProfile "EURUSD" [] ⟨fun _ => 0, fun _ => 0⟩ := by
      unfold getSessionProfile vpGroups
      simp [List.insertionSort]
    rw [h, sampleVolumeProfile_length]

/-- C6 amended: when the symbol has no matching stored data, the read
operations do not signal any error: `get_cvd` falls back to
`_generate_sample_cvd_data` and returns `limit` synthetic points, and
`get_session_profile` falls back to `_generate_sample_volume_profile`
and returns 50 synthetic levels — a successful result in both cases. -/
theorem C6_amended_sample_fallback (store : Store) (symbol tf : String) (limit : ℕ)
    (rand : ℕ → ℚ) (rng : SampleRng) (vp : List VPRow) (startT endT : ℤ)
    (prng : ProfileRng)
    (hA : store.filter (fun r => decide (r.symbol = symbol ∧ r.timeframe = tf)) = [])
    (hB : vp.filter (fun r =>
      decide (r.symbol = symbol ∧ startT ≤ r.time ∧ r.time ≤ endT)) = []) :
    getCvd store symbol tf limit rand rng = sampleCvd symbol tf limit rng ∧
    (getCvd store symbol tf limit rand rng).length = limit ∧
    getSessionProfile vp store symbol startT endT prng =
      sampleVolumeProfile symbol
        ((((store.filter fun r =>
            decide (r.symbol = symbol ∧ startT ≤ r.time ∧ r.time ≤ endT)).insertionSort
              timeDescR).take 100).map Row.close) prng ∧
    (getSessionProfile vp store symbol startT endT prng).length = 50 := by
  have hcvd : getCvd store symbol tf limit rand rng = sampleCvd symbol tf limit rng := by
    unfold getCvd fetchDesc
    rw [hA]
    simp [List.insertionSort]
  have hprof : getSessionProfile vp store symbol startT endT prng =
      sampleVolumeProfile symbol
        ((((store.filter fun r =>
            decide (r.symbol = symbol ∧ startT ≤ r.time ∧ r.time ≤ endT)).insertionSort
              timeDescR).take 100).map Row.close) prng := by
    unfold getSessionProfile vpGroups
    rw [hB]
    simp [List.insertionSort]
  refine ⟨hcvd, ?_, hprof, ?_⟩
  · rw [hcvd, sampleCvd_length]
  · rw [hprof, sampleVolumeProfile_length]

/-- C6 amended, witnessed at a store holding data only for another
symbol. -/
theorem C6_amended_sample_fallback_witness :
    getCvd [⟨0, "XAUUSD", "1s", 1, 1, 1, 1, 1, none, none, none, none⟩]
        "EURUSD" "1m" 5 (fun _ => 0) ⟨0, 0, fun _ => 0, fun _ => 0, fun _ => 0⟩ =
      sampleCvd "EURUSD" "1m" 5 ⟨0, 0, fun _ => 0, fun _ => 0, fun _ => 0⟩ ∧
    (getCvd [⟨0, "XAUUSD", "1s", 1, 1, 1, 1, 1, none, none, none, none⟩]
        "EURUSD" "1m" 5 (fun _ => 0) ⟨0, 0, fun _ => 0, fun _ => 0, fun _ => 0⟩).length = 5 ∧
    getSessionProfile [] [⟨0, "XAUUSD", "1s", 1, 1, 1, 1, 1, none, none, none, none⟩]
        "EURUSD" 0 100 ⟨fun _ => 0, fun _ => 0⟩ =
      sampleVolumeProfile "EURUSD"
        (((([⟨0, "XAUUSD", "1s", 1, 1, 1, 1, 1, none, none, none, none⟩].filter fun r =>
            decide (r.symbol = "EURUSD" ∧ 0 ≤ r.time ∧ r.time ≤ 100)).insertionSort
              timeDescR).take 100).map Row.close) ⟨fun _ => 0, fun _ => 0⟩ ∧
    (getSessionProfile [] [⟨0, "XAUUSD", "1s", 1, 1, 1, 1, 1, none, none, none, none⟩]
        "EURUSD" 0 100 ⟨fun _ => 0, fun _ => 0⟩).length = 50 :=
  C6_amended_sample_fallback
    [⟨0, "XAUUSD", "1s", 1, 1, 1, 1, 1, none, none, none, none⟩] "EURUSD" "1m" 5
    (fun _ => 0) ⟨0, 0, fun _ => 0, fun _ => 0, fun _ => 0⟩ [] 0 100
    ⟨fun _ => 0, fun _ => 0⟩ rfl rfl

/-- Batteries' `Rat.floor` agrees with the floor of the floor ring. -/
theorem ratFloor_eq_floor (q : ℚ) : q.floor = ⌊q⌋ := by
  rw [Rat.floor_def', Rat.floor_def]

/-- With a positive price range the synthetic level loop runs exactly 21
times (`low, low + step, ..., high` with `step = (high-low)/20`). -/
theorem levelCount_eq_21 (low high : ℚ) (h : low < high) :
    levelCount low high ((high - low) / 20) = 21 := by
  unfold levelCount
  rw [if_neg (not_lt.mpr h.le)]
  have h0 : high - low ≠ 0 := sub_ne_zero.mpr h.ne'
  have h20 : (high - low) / ((high - low) / 20) = 20 := by
    field_simp
  rw [h20, ratFloor_eq_floor]
  norm_num
  rfl

/-- C7 counterexample: for a bar with `high=1, low=0, close=1,
volume=2000` (and `random() = 1/2`), the footprint's per-level volumes
sum to `3195/4 = 798.75`, less than half the bar's total volume of
`2000` — far outside any floating-point tolerance. -/
theorem C7_counterexample_level_sum_not_total :
    ((getFootprint [⟨0, "S", "1s", 1, 1, 0, 1, 2000, none, none, none, none⟩]
        "S" "1s" 1 (fun _ _ => 1/2) (fun _ _ => 1/2)
        ⟨0, fun _ => 0, fun _ => 0, fun _ _ => 0, fun _ _ => 0⟩).map FEntry.totalVolume).sum
      = 3195/4 ∧ (3195/4 : ℚ) < 2000 * (1/2) := by
  constructor
  · have hfb : footprintBars (fun _ _ => (1:ℚ)/2) (fun _ _ => (1:ℚ)/2) 0
        [⟨0, "S", "1s", 1, 1, 0, 1, 2000, none, none, none, none⟩] =
        .ok (footprintLevels (fun _ => 1/2) (fun _ => 1/2) 0 1 0 1 2000) := by
      norm_num [footprintBars, barFootprint, pyOr, Bind.bind, Monad.toBind,
        Except.instMonad, Except.bind, Except.pure]
    have hfp : getFootprint [⟨0, "S", "1s", 1, 1, 0, 1, 2000, none, none, none, none⟩]
        "S" "1s" 1 (fun _ _ => 1/2) (fun _ _ => 1/2)
        ⟨0, fun _ => 0, fun _ => 0, fun _ _ => 0, fun _ _ => 0⟩ =
        footprintLevels (fun _ => 1/2) (fun _ => 1/2) 0 1 0 1 2000 := by
      norm_num [getFootprint, fetchDesc, List.insertionSort, List.orderedInsert, hfb]
    rw [hfp]
    have hcount : levelCount 0 1 (1 / 20) = 21 := by
      have h := levelCount_eq_21 0 1 (by norm_num)
      norm_num at h
      exact h
    have hrange : List.range 21 = [0,1,2,3,4,5,6,7,8,9,10,11,12,13,14,15,16,17,18,19,20] := rfl
    unfold footprintLevels
    norm_num [hcount, hrange, abs, max_def]
  · norm_num

/-- C7 amended: for a bar with `low < high` the synthetic footprint
produces 21 levels whose volumes are `(total/20) · weight · factor`; the
sum of the per-level volumes is bounded by `1.05 ×` the bar's total
volume but is **not** the bar's total volume in general (no
normalization is applied — see the counterexample, where it is 39.9% of
the total). -/
theorem C7_amended_footprint_volume_sum (bar : Row) (rf rb : ℕ → ℚ)
    (hhl : bar.low < bar.high) (hv : 0 ≤ bar.volume)
    (hrf : ∀ k, 0 ≤ rf k ∧ rf k ≤ 1) :
    barFootprint rf rb bar =
      .ok (footprintLevels rf rb bar.time bar.high bar.low bar.close
        (pyOr bar.volume 1000)) ∧
    (footprintLevels rf rb bar.time bar.high bar.low bar.close
      (pyOr bar.volume 1000)).length = 21 ∧
    ((footprintLevels rf rb bar.time bar.high bar.low bar.close
      (pyOr bar.volume 1000)).map FEntry.totalVolume).sum ≤
      (21/20) * pyOr bar.volume 1000 := by
  have hT : 0 ≤ pyOr bar.volume 1000 := by
    unfold pyOr
    split
    · norm_num
    · exact hv
  have hrange : bar.high - bar.low > 0 := sub_pos.mpr hhl
  have hstep : (bar.high - bar.low) / 20 ≠ 0 := by
    intro hc
    rw [div_eq_zero_iff] at hc
    rcases hc with hc | hc
    · exact hrange.ne' hc
    · norm_num at hc
  constructor
  · unfold barFootprint
    rw [if_neg hhl.ne']
  constructor
  · unfold footprintLevels
    simp only [if_neg hstep, List.length_map, List.length_range]
    exact levelCount_eq_21 bar.low bar.high hhl
  · set T := pyOr bar.volume 1000 with hTdef
    have hbound : ∀ x ∈ (footprintLevels rf rb bar.time bar.high bar.low bar.close T).map
        FEntry.totalVolume, x ≤ T / 20 := by
      intro x hx
      rw [List.mem_map] at hx
      obtain ⟨e, he, hex⟩ := hx
      unfold footprintLevels at he
      simp only [if_neg hstep, List.mem_map, List.mem_range] at he
      obtain ⟨k, _, hek⟩ := he
      subst hek
      simp only at hex
      subst hex
      set d := |bar.low + (k : ℚ) * ((bar.high - bar.low) / 20) - bar.close| /
        (bar.high - bar.low) with hd
      have hd0 : 0 ≤ d := div_nonneg (abs_nonneg _) hrange.le
      set w := max (1/10 : ℚ) (1 - d) with hw
      have hw0 : 0 ≤ w := le_trans (by norm_num) (le_max_left _ _)
      have hw1 : w ≤ 1 := max_le (by norm_num) (by linarith)
      set f := (1/2 : ℚ) + rf k * (1/2) with hf
      have hf0 : 0 ≤ f := by
        have := (hrf k).1
        rw [hf]
        linarith
      have hf1 : f ≤ 1 := by
        have := (hrf k).2
        rw [hf]
        linarith
      have hwf : w * f ≤ 1 := by nlinarith
      have hT20 : 0 ≤ T / 20 := by positivity
      calc T / 20 * w * f = T / 20 * (w * f) := by ring
        _ ≤ T / 20 * 1 := by exact mul_le_mul_of_nonneg_left hwf hT20
        _ = T / 20 := by ring
    have hsum := List.sum_le_card_nsmul _ _ hbound
    have hlen : ((footprintLevels rf rb bar.time bar.high bar.low bar.close T).map
        FEntry.totalVolume).length = 21 := by
      rw [List.length_map]
      unfold footprintLevels
      simp only [if_neg hstep, List.length_map, List.length_range]
      exact levelCount_eq_21 bar.low bar.high hhl
    rw [hlen] at hsum
    calc ((footprintLevels rf rb bar.time bar.high bar.low bar.close T).map
          FEntry.totalVolume).sum ≤ 21 • (T / 20) := hsum
      _ = 21 * (T / 20) := by rw [nsmul_eq_mul]; norm_num
      _ = 21/20 * T := by ring

/-- C7 amended, witnessed at the counterexample's bar: `low=0 < high=1`,
`volume=2000 ≥ 0`, `rf = 1/2 ∈ [0,1]`. -/
theorem C7_amended_footprint_volume_sum_witness :
    barFootprint (fun _ => 1/2) (fun _ => 1/2)
        ⟨0, "S", "1s", 1, 1, 0, 1, 2000, none, none, none, none⟩ =
      .ok (footprintLevels (fun _ => 1/2) (fun _ => 1/2) 0 1 0 1 (pyOr 2000 1000)) ∧
    (footprintLevels (fun _ => 1/2) (fun _ => 1/2) 0 1 0 1 (pyOr 2000 1000)).length = 21 ∧
    ((footprintLevels (fun _ => 1/2) (fun _ => 1/2) 0 1 0 1 (pyOr 2000 1000)).map
      FEntry.totalVolume).sum ≤ (21/20) * pyOr 2000 1000 :=
  C7_amended_footprint_volume_sum ⟨0, "S", "1s", 1, 1, 0, 1, 2000, none, none, none, none⟩
    (fun _ => 1/2) (fun _ => 1/2) (by norm_num) (by norm_num)
    (fun k => by norm_num)

/-- The chronological prefix-sum contract of a CVD sequence: strictly
increasing times, first cumulative = first delta, each cumulative =
previous cumulative + own delta, last cumulative = sum of all deltas. -/
def cvdInvariant (l : List CvdPoint) : Prop :=
  (l.map CvdPoint.time).Pairwise (· < ·) ∧
  (∀ p ∈ l.head?, p.cumulativeDelta = p.delta) ∧
  l.Chain' (fun a b => b.cumulativeDelta = a.cumulativeDelta + b.delta) ∧
  ∀ p ∈ l.getLast?, p.cumulativeDelta = (l.map CvdPoint.delta).sum

/-- The same contract for `get_cvd_data` points. -/
def cvdDataInvariant (l : List CvdDataPoint) : Prop :=
  (l.map CvdDataPoint.time).Pairwise (· < ·) ∧
  (∀ p ∈ l.head?, p.cumulative_delta = p.delta) ∧
  l.Chain' (fun a b => b.cumulative_delta = a.cumulative_delta + b.delta) ∧
  ∀ p ∈ l.getLast?, p.cumulative_delta = (l.map CvdDataPoint.delta).sum

/-- The fold of `get_cvd` keeps times, threads the accumulator into the
head, chains the cumulative delta, and ends at the accumulated sum. -/
theorem cvdLoop_props (rand : ℕ → ℚ) :
    ∀ (rows : List Row) (i : ℕ) (acc : ℚ),
      ((cvdLoop rand i acc rows).map CvdPoint.time = rows.map Row.time) ∧
      (∀ p ∈ (cvdLoop rand i acc rows).head?, p.cumulativeDelta = acc + p.delta) ∧
      (cvdLoop rand i acc rows).Chain'
        (fun a b => b.cumulativeDelta = a.cumulativeDelta + b.delta) ∧
      (∀ p ∈ (cvdLoop rand i acc rows).getLast?,
        p.cumulativeDelta = acc + ((cvdLoop rand i acc rows).map CvdPoint.delta).sum) := by
  intro rows
  induction rows with
  | nil => intro i acc; simp [cvdLoop]
  | cons r rs ih =>
      intro i acc
      have hstep : (cvdStep rand i acc r).cumulativeDelta =
          acc + (cvdStep rand i acc r).delta := rfl
      have hloop : cvdLoop rand i acc (r :: rs) =
          cvdStep rand i acc r ::
            cvdLoop rand (i + 1) (cvdStep rand i acc r).cumulativeDelta rs := rfl
      obtain ⟨ih1, ih2, ih3, ih4⟩ := ih (i + 1) (cvdStep rand i acc r).cumulativeDelta
      refine ⟨?_, ?_, ?_, ?_⟩
      · rw [hloop, List.map_cons, List.map_cons, ih1]
        rfl
      · intro p hp
        rw [hloop] at hp
        simp only [List.head?_cons, Option.mem_def, Option.some.injEq] at hp
        rw [← hp]
        exact hstep
      · rw [hloop, List.chain'_cons']
        exact ⟨fun q hq => by rw [ih2 q hq, hstep], ih3⟩
      · intro p hp
        rw [hloop] at hp
        cases hrs : cvdLoop rand (i + 1) (cvdStep rand i acc r).cumulativeDelta rs with
        | nil =>
            rw [hrs] at hp
            simp only [List.getLast?_singleton, Option.mem_def, Option.some.injEq] at hp
            rw [← hp, hloop, hrs, hstep]
            simp
        | cons q qs =>
            rw [hrs, List.getLast?_cons_cons] at hp
            have h4 := ih4 p (by rw [hrs] at ih4 ⊢; exact hp)
            rw [hloop, hrs]
            rw [hrs] at h4
            rw [h4, hstep]
            simp only [List.map_cons, List.sum_cons]
            ring

/-- The bucket fold of `get_cvd_data` has the same shape. -/
theorem cvdDataLoop_props (dur : ℕ) (rows : List Row) :
    ∀ (bs : List ℤ) (acc : ℚ),
      ((cvdDataLoop dur rows acc bs).map CvdDataPoint.time = bs) ∧
      (∀ p ∈ (cvdDataLoop dur rows acc bs).head?, p.cumulative_delta = acc + p.delta) ∧
      (cvdDataLoop dur rows acc bs).Chain'
        (fun a b => b.cumulative_delta = a.cumulative_delta + b.delta) ∧
      (∀ p ∈ (cvdDataLoop dur rows acc bs).getLast?,
        p.cumulative_delta = acc + ((cvdDataLoop dur rows acc bs).map
          CvdDataPoint.delta).sum) := by
  intro bs
  induction bs with
  | nil => intro acc; simp [cvdDataLoop]
  | cons b rest ih =>
      intro acc
      set g := bucketGroup dur b rows with hg
      set bidV := (osum (g.map Row.bid_volume)).getD 0 with hbid
      set askV := (osum (g.map Row.ask_volume)).getD 0 with hask
      have hloop : cvdDataLoop dur rows acc (b :: rest) =
          ⟨b, askV - bidV, acc + (askV - bidV)⟩ ::
            cvdDataLoop dur rows (acc + (askV - bidV)) rest := rfl
      obtain ⟨ih1, ih2, ih3, ih4⟩ := ih (acc + (askV - bidV))
      refine ⟨?_, ?_, ?_, ?_⟩
      · rw [hloop, List.map_cons, ih1]
      · intro p hp
        rw [hloop] at hp
        simp only [List.head?_cons, Option.mem_def, Option.some.injEq] at hp
        rw [← hp]
      · rw [hloop, List.chain'_cons']
        exact ⟨fun q hq => ih2 q hq, ih3⟩
      · intro p hp
        rw [hloop] at hp
        cases hrs : cvdDataLoop dur rows (acc + (askV - bidV)) rest with
        | nil =>
            rw [hrs] at hp
            simp only [List.getLast?_singleton, Option.mem_def, Option.some.injEq] at hp
            rw [← hp, hloop, hrs]
            simp
        | cons q qs =>
            rw [hrs, List.getLast?_cons_cons] at hp
            have h4 := ih4 p (by rw [hrs] at ih4 ⊢; exact hp)
            rw [hloop, hrs]
            rw [hrs] at h4
            rw [h4]
            simp only [List.map_cons, List.sum_cons]
            ring

/-- C1: on the real-data path (some rows exist; stored times are unique
per symbol/timeframe, as the primary key guarantees) `get_cvd` returns
chronologically increasing points satisfying the prefix-sum invariant,
and `get_cvd_data` does the same unconditionally over its ascending
buckets. -/
theorem C1_cvd_prefix_sum (store : Store) (symbol tf : String) (limit : ℕ)
    (rand : ℕ → ℚ) (rng : SampleRng) (store2 : Store) (symbol2 tf2 : String)
    (startT endT : ℤ)
    (hne : fetchDesc store symbol tf limit ≠ [])
    (hnd : (store.filter fun r => decide (r.symbol = symbol ∧ r.timeframe = tf)).Pairwise
      (fun a b => a.time ≠ b.time)) :
    cvdInvariant (getCvd store symbol tf limit rand rng) ∧
    cvdDataInvariant (getCvdData store2 symbol2 tf2 startT endT) := by
  constructor
  · have hout : getCvd store symbol tf limit rand rng =
        cvdLoop rand 0 0 (fetchDesc store symbol tf limit).reverse := by
      unfold getCvd
      rw [if_neg]
      intro hempty
      exact hne (List.isEmpty_iff.mp hempty)
    obtain ⟨h1, h2, h3, h4⟩ :=
      cvdLoop_props rand (fetchDesc store symbol tf limit).reverse 0 0
    have hdesc : (fetchDesc store symbol tf limit).Pairwise
        (fun a b => b.time < a.time) := by
      have hsorted : (fetchDesc store symbol tf limit).Pairwise timeDescR :=
        List.Pairwise.sublist (List.take_sublist _ _)
          (List.sorted_insertionSort timeDescR _)
      have hnodup : (fetchDesc store symbol tf limit).Pairwise
          (fun a b => a.time ≠ b.time) :=
        List.Pairwise.sublist (List.take_sublist _ _)
          (((List.perm_insertionSort timeDescR _).pairwise_iff
            (fun h => h.symm)).mpr hnd)
      exact (hsorted.and hnodup).imp fun h => lt_of_le_of_ne h.1 h.2.symm
    refine ⟨?_, ?_, ?_, ?_⟩
    · rw [hout, h1, List.pairwise_map]
      rw [List.pairwise_reverse]
      exact hdesc
    · intro p hp
      have := h2 p (by rw [hout] at hp; exact hp)
      rw [this, zero_add]
    · rw [hout]; exact h3
    · intro p hp
      have := h4 p (by rw [hout] at hp; exact hp)
      rw [hout, this, zero_add]
  · have hout : getCvdData store2 symbol2 tf2 startT endT =
        cvdDataLoop (parseTimeframe tf2)
          ((baseRows store2 symbol2).filter fun r =>
            decide (startT ≤ r.time ∧ r.time ≤ endT)) 0
          (((((baseRows store2 symbol2).filter fun r =>
            decide (startT ≤ r.time ∧ r.time ≤ endT)).map fun r =>
              bucketOf (parseTimeframe tf2) r.time).dedup).insertionSort ascZ) := rfl
    obtain ⟨h1, h2, h3, h4⟩ := cvdDataLoop_props (parseTimeframe tf2)
      ((baseRows store2 symbol2).filter fun r =>
        decide (startT ≤ r.time ∧ r.time ≤ endT))
      (((((baseRows store2 symbol2).filter fun r =>
        decide (startT ≤ r.time ∧ r.time ≤ endT)).map fun r =>
          bucketOf (parseTimeframe tf2) r.time).dedup).insertionSort ascZ) 0
    refine ⟨?_, ?_, ?_, ?_⟩
    · rw [hout, h1]
      have hsorted : (((((baseRows store2 symbol2).filter fun r =>
          decide (startT ≤ r.time ∧ r.time ≤ endT)).map fun r =>
            bucketOf (parseTimeframe tf2) r.time).dedup).insertionSort ascZ).Pairwise
          ascZ := List.sorted_insertionSort ascZ _
      have hnodup : (((((baseRows store2 symbol2).filter fun r =>
          decide (startT ≤ r.time ∧ r.time ≤ endT)).map fun r =>
            bucketOf (parseTimeframe tf2) r.time).dedup).insertionSort ascZ).Nodup := by
        rw [(List.perm_insertionSort ascZ _).nodup_iff]
        exact List.nodup_dedup _
      exact (hsorted.and hnodup).imp fun h => lt_of_le_of_ne h.1 h.2
    · intro p hp
      have := h2 p (by rw [hout] at hp; exact hp)
      rw [this, zero_add]
    · rw [hout]; exact h3
    · intro p hp
      have := h4 p (by rw [hout] at hp; exact hp)
      rw [hout, this, zero_add]

/-- C1 witnessed on a concrete two-bar store (times 1 and 0) and a
two-bucket `get_cvd_data` store. -/
theorem C1_cvd_prefix_sum_witness :
    cvdInvariant (getCvd
      [⟨1, "S", "1m", 1, 1, 1, 1, 10, some 2, some 5, none, none⟩,
       ⟨0, "S", "1m", 1, 1, 1, 1, 10, some 3, some 4, none, none⟩]
      "S" "1m" 5 (fun _ => 0) ⟨0, 0, fun _ => 0, fun _ => 0, fun _ => 0⟩) ∧
    cvdDataInvariant (getCvdData
      [⟨1, "S", "1s", 1, 1, 1, 1, 10, some 2, some 5, none, none⟩,
       ⟨0, "S", "1s", 1, 1, 1, 1, 10, some 3, some 4, none, none⟩]
      "S" "1s" 0 100) :=
  C1_cvd_prefix_sum
    [⟨1, "S", "1m", 1, 1, 1, 1, 10, some 2, some 5, none, none⟩,
     ⟨0, "S", "1m", 1, 1, 1, 1, 10, some 3, some 4, none, none⟩]
    "S" "1m" 5 (fun _ => 0) ⟨0, 0, fun _ => 0, fun _ => 0, fun _ => 0⟩
    [⟨1, "S", "1s", 1, 1, 1, 1, 10, some 2, some 5, none, none⟩,
     ⟨0, "S", "1s", 1, 1, 1, 1, 10, some 3, some 4, none, none⟩]
    "S" "1s" 0 100
    (by intro h; exact absurd h (by decide)) (by decide)

/-- A `foldl max` dominates its seed and every list element. -/
theorem foldl_max_dominates (l : List ℚ) : ∀ (a : ℚ),
    a ≤ l.foldl max a ∧ ∀ x ∈ l, x ≤ l.foldl max a := by
  induction l with
  | nil => intro a; simp
  | cons y ys ih =>
      intro a
      obtain ⟨h1, h2⟩ := ih (max a y)
      constructor
      · rw [List.foldl_cons]
        exact le_trans (le_max_left a y) h1
      · intro x hx
        rw [List.foldl_cons]
        rcases List.mem_cons.mp hx with hx | hx
        · rw [hx]
          exact le_trans (le_max_right a y) h1
        · exact h2 x hx

/-- A `foldl max` is its seed or one of the list elements. -/
theorem foldl_max_mem (l : List ℚ) : ∀ (a : ℚ),
    l.foldl max a = a ∨ l.foldl max a ∈ l := by
  induction l with
  | nil => intro a; simp
  | cons y ys ih =>
      intro a
      rcases ih (max a y) with h | h
      · rcases max_choice a y with hm | hm
        · exact Or.inl (by rw [List.foldl_cons, h, hm])
        · exact Or.inr (by rw [List.foldl_cons, h, hm]; exact List.mem_cons_self y ys)
      · exact Or.inr (List.mem_cons_of_mem y h)

/-- A `foldl min` is below its seed and every list element. -/
theorem foldl_min_dominates (l : List ℚ) : ∀ (a : ℚ),
    l.foldl min a ≤ a ∧ ∀ x ∈ l, l.foldl min a ≤ x := by
  induction l with
  | nil => intro a; simp
  | cons y ys ih =>
      intro a
      obtain ⟨h1, h2⟩ := ih (min a y)
      constructor
      · rw [List.foldl_cons]
        exact le_trans h1 (min_le_left a y)
      · intro x hx
        rw [List.foldl_cons]
        rcases List.mem_cons.mp hx with hx | hx
        · rw [hx]
          exact le_trans h1 (min_le_right a y)
        · exact h2 x hx

/-- A `foldl min` is its seed or one of the list elements. -/
theorem foldl_min_mem (l : List ℚ) : ∀ (a : ℚ),
    l.foldl min a = a ∨ l.foldl min a ∈ l := by
  induction l with
  | nil => intro a; simp
  | cons y ys ih =>
      intro a
      rcases ih (min a y) with h | h
      · rcases min_choice a y with hm | hm
        · exact Or.inl (by rw [List.foldl_cons, h, hm])
        · exact Or.inr (by rw [List.foldl_cons, h, hm]; exact List.mem_cons_self y ys)
      · exact Or.inr (List.mem_cons_of_mem y h)

/-- The greedy §4.3 selection accumulates at least the target whenever
the whole list can (volumes nonnegative). -/
theorem valueAreaSelect_reaches (target : ℚ) :
    ∀ (l : List SpecLevel) (acc : ℚ),
      (∀ x ∈ l, 0 ≤ x.volume) →
      target ≤ acc + (l.map SpecLevel.volume).sum →
      target ≤ acc + ((valueAreaSelect target acc l).map SpecLevel.volume).sum := by
  intro l
  induction l with
  | nil =>
      intro acc _ h
      unfold valueAreaSelect
      simpa using h
  | cons x xs ih =>
      intro acc hnn htot
      unfold valueAreaSelect
      by_cases hstop : target ≤ acc + x.volume
      · rw [if_pos hstop]
        simpa using hstop
      · rw [if_neg hstop]
        have hx := ih (acc + x.volume)
          (fun y hy => hnn y (List.mem_cons_of_mem x hy))
          (by simp only [List.map_cons, List.sum_cons] at htot; linarith)
        simp only [List.map_cons, List.sum_cons]
        linarith

/-- C5 (spec-modelled: the point-of-control / value-area builder of §4.3
is absent from the source; `get_session_profile` returns only per-level
sums): for nonnegative level volumes, `build_profile` picks as point of
control a level of maximum volume with ties broken by the higher price,
its value-area bounds bracket the point of control, the greedily selected
value-area levels sum to at least 70% of the total volume, and when the
total volume is 0 both value-area bounds default to 0. -/
theorem C5_volume_profile_invariants (levels : List SpecLevel)
    (hnn : ∀ l ∈ levels, 0 ≤ l.volume) :
    ((buildProfile levels).total_volume ≠ 0 →
      (∃ p ∈ levels, p.price = (buildProfile levels).point_of_control ∧
        (∀ l ∈ levels, l.volume ≤ p.volume) ∧
        (∀ l ∈ levels, l.volume = p.volume → l.price ≤ p.price)) ∧
      (buildProfile levels).value_area_low ≤ (buildProfile levels).point_of_control ∧
      (buildProfile levels).point_of_control ≤ (buildProfile levels).value_area_high ∧
      (7/10) * (buildProfile levels).total_volume ≤
        ((valueAreaSelect ((7/10) * (levels.map SpecLevel.volume).sum) 0
          (levels.insertionSort volDescR)).map SpecLevel.volume).sum) ∧
    ((buildProfile levels).total_volume = 0 →
      (buildProfile levels).value_area_high = 0 ∧
      (buildProfile levels).value_area_low = 0) := by
  have htotal : (buildProfile levels).total_volume = (levels.map SpecLevel.volume).sum := rfl
  constructor
  · intro hne
    rw [htotal] at hne
    have hlevne : levels ≠ [] := by
      intro hc
      rw [hc] at hne
      exact hne rfl
    have hsortne : levels.insertionSort volDescR ≠ [] := by
      intro hc
      have := List.length_insertionSort volDescR levels
      rw [hc] at this
      exact hlevne (List.length_eq_zero.mp this.symm)
    obtain ⟨h, t, hsort⟩ := List.exists_cons_of_ne_nil hsortne
    have hsorted : (levels.insertionSort volDescR).Pairwise volDescR :=
      List.sorted_insertionSort volDescR levels
    have hmem_iff : ∀ x, x ∈ levels.insertionSort volDescR ↔ x ∈ levels :=
      fun x => List.mem_insertionSort volDescR
    have hhead : ∀ l ∈ levels, l = h ∨ volDescR h l := by
      intro l hl
      have : l ∈ h :: t := hsort ▸ (hmem_iff l).mpr hl
      rcases List.mem_cons.mp this with hx | hx
      · exact Or.inl hx
      · right
        rw [hsort] at hsorted
        exact (List.pairwise_cons.mp hsorted).1 l hx
    have hpoc : (buildProfile levels).point_of_control = h.price := by
      unfold buildProfile
      simp only [hsort, List.head?_cons, Option.map_some', Option.getD_some]
    have hhm : h ∈ levels := (hmem_iff h).mp (hsort ▸ List.mem_cons_self h t)
    -- the greedy selection starts with the sorted head
    have hsel : valueAreaSelect ((7/10) * (levels.map SpecLevel.volume).sum) 0
        (levels.insertionSort volDescR) =
        h :: (if (7/10) * (levels.map SpecLevel.volume).sum ≤ 0 + h.volume then []
          else valueAreaSelect ((7/10) * (levels.map SpecLevel.volume).sum)
            (0 + h.volume) t) := by
      rw [hsort]
      rfl
    refine ⟨⟨h, hhm, hpoc.symm, ?_, ?_⟩, ?_, ?_, ?_⟩
    · intro l hl
      rcases hhead l hl with hx | hx
      · exact hx ▸ le_refl _
      · rcases hx with hx | hx
        · exact hx.le
        · exact hx.1.le
    · intro l hl hv
      rcases hhead l hl with hx | hx
      · exact hx ▸ le_refl _
      · rcases hx with hx | hx
        · exact absurd hv (by intro hc; rw [hc] at hx; exact lt_irrefl _ hx)
        · exact hx.2
    · unfold buildProfile
      simp only [if_neg hne]
      rw [show (levels.insertionSort volDescR).head? = some h by rw [hsort]; rfl]
      simp only [Option.map_some', Option.getD_some]
      rw [show valueAreaSelect (7/10 * (levels.map SpecLevel.volume).sum) 0
          (levels.insertionSort volDescR) =
          h :: (if (7/10) * (levels.map SpecLevel.volume).sum ≤ 0 + h.volume then []
            else valueAreaSelect ((7/10) * (levels.map SpecLevel.volume).sum)
              (0 + h.volume) t) from hsel]
      simp only [List.map_cons, aggMin]
      exact (foldl_min_dominates _ h.price).1
    · unfold buildProfile
      simp only [if_neg hne]
      rw [show (levels.insertionSort volDescR).head? = some h by rw [hsort]; rfl]
      simp only [Option.map_some', Option.getD_some]
      rw [show valueAreaSelect (7/10 * (levels.map SpecLevel.volume).sum) 0
          (levels.insertionSort volDescR) =
          h :: (if (7/10) * (levels.map SpecLevel.volume).sum ≤ 0 + h.volume then []
            else valueAreaSelect ((7/10) * (levels.map SpecLevel.volume).sum)
              (0 + h.volume) t) from hsel]
      simp only [List.map_cons, aggMax]
      exact (foldl_max_dominates _ h.price).1
    · have hnn' : ∀ x ∈ levels.insertionSort volDescR, 0 ≤ x.volume :=
        fun x hx => hnn x ((hmem_iff x).mp hx)
      have hsum_eq : ((levels.insertionSort volDescR).map SpecLevel.volume).sum =
          (levels.map SpecLevel.volume).sum :=
        ((List.perm_insertionSort volDescR levels).map SpecLevel.volume).sum_eq
      have htot_nn : 0 ≤ (levels.map SpecLevel.volume).sum :=
        List.sum_nonneg (by
          intro x hx
          rw [List.mem_map] at hx
          obtain ⟨l, hl, hlx⟩ := hx
          exact hlx ▸ hnn l hl)
      have := valueAreaSelect_reaches ((7/10) * (levels.map SpecLevel.volume).sum)
        (levels.insertionSort volDescR) 0 hnn'
        (by rw [hsum_eq]; linarith)
      simpa using this
  · intro h0
    rw [htotal] at h0
    unfold buildProfile
    simp only [h0, if_pos rfl]
    exact ⟨rfl, rfl⟩

/-- C5 witnessed on the levels `(100, 10), (101, 10), (99, 1)`: the point
of control is 101 (the higher-priced of the two volume-10 levels). -/
theorem C5_volume_profile_invariants_witness :
    ((buildProfile [⟨100, 10⟩, ⟨101, 10⟩, ⟨99, 1⟩]).total_volume ≠ 0 →
      (∃ p ∈ [(⟨100, 10⟩ : SpecLevel), ⟨101, 10⟩, ⟨99, 1⟩],
        p.price = (buildProfile [⟨100, 10⟩, ⟨101, 10⟩, ⟨99, 1⟩]).point_of_control ∧
        (∀ l ∈ [(⟨100, 10⟩ : SpecLevel), ⟨101, 10⟩, ⟨99, 1⟩], l.volume ≤ p.volume) ∧
        (∀ l ∈ [(⟨100, 10⟩ : SpecLevel), ⟨101, 10⟩, ⟨99, 1⟩],
          l.volume = p.volume → l.price ≤ p.price)) ∧
      (buildProfile [⟨100, 10⟩, ⟨101, 10⟩, ⟨99, 1⟩]).value_area_low ≤
        (buildProfile [⟨100, 10⟩, ⟨101, 10⟩, ⟨99, 1⟩]).point_of_control ∧
      (buildProfile [⟨100, 10⟩, ⟨101, 10⟩, ⟨99, 1⟩]).point_of_control ≤
        (buildProfile [⟨100, 10⟩, ⟨101, 10⟩, ⟨99, 1⟩]).value_area_high ∧
      (7/10) * (buildProfile [⟨100, 10⟩, ⟨101, 10⟩, ⟨99, 1⟩]).total_volume ≤
        ((valueAreaSelect ((7/10) * (([(⟨100, 10⟩ : SpecLevel), ⟨101, 10⟩, ⟨99, 1⟩].map
          SpecLevel.volume).sum)) 0
          ([(⟨100, 10⟩ : SpecLevel), ⟨101, 10⟩, ⟨99, 1⟩].insertionSort volDescR)).map
            SpecLevel.volume).sum) ∧
    ((buildProfile [⟨100, 10⟩, ⟨101, 10⟩, ⟨99, 1⟩]).total_volume = 0 →
      (buildProfile [⟨100, 10⟩, ⟨101, 10⟩, ⟨99, 1⟩]).value_area_high = 0 ∧
      (buildProfile [⟨100, 10⟩, ⟨101, 10⟩, ⟨99, 1⟩]).value_area_low = 0) :=
  C5_volume_profile_invariants [⟨100, 10⟩, ⟨101, 10⟩, ⟨99, 1⟩] (by
    intro l hl
    rcases List.mem_cons.mp hl with h | hl
    · rw [h]; norm_num
    rcases List.mem_cons.mp hl with h | hl
    · rw [h]; norm_num
    rcases List.mem_cons.mp hl with h | hl
    · rw [h]; norm_num
    · exact absurd hl (List.not_mem_nil l))

/-- Buckets listed by the group-by always have contributing rows. -/
theorem bucketGroup_ne_nil (dur : ℕ) (rows : List Row) (limit : ℕ) (b : ℤ)
    (hb : b ∈ bucketsDesc dur rows limit) : bucketGroup dur b rows ≠ [] := by
  unfold bucketsDesc at hb
  have hb1 : b ∈ ((rows.map fun r => bucketOf dur r.time).dedup).insertionSort descZ :=
    List.mem_of_mem_take hb
  have hb2 : b ∈ (rows.map fun r => bucketOf dur r.time).dedup :=
    (List.mem_insertionSort descZ).mp hb1
  have hb3 : b ∈ rows.map fun r => bucketOf dur r.time := List.mem_dedup.mp hb2
  rw [List.mem_map] at hb3
  obtain ⟨r, hr, hrb⟩ := hb3
  intro hc
  have : r ∈ bucketGroup dur b rows := by
    unfold bucketGroup
    rw [List.mem_filter]
    exact ⟨hr, by simp [hrb]⟩
  rw [hc] at this
  exact List.not_mem_nil r this

/-- Field-level characterization of one aggregated bucket: open/close are
the first/last contributing row's values by ascending time, high/low are
the max/min over the group. -/
theorem aggBucket_spec (symbol tf : String) (dur : ℕ) (b : ℤ) (rows : List Row)
    (hne : bucketGroup dur b rows ≠ []) :
    (∃ r ∈ bucketGroup dur b rows, (aggBucket symbol tf dur b rows).open_ = r.open_ ∧
      ∀ x ∈ bucketGroup dur b rows, r.time ≤ x.time) ∧
    (∃ r ∈ bucketGroup dur b rows, (aggBucket symbol tf dur b rows).close = r.close ∧
      ∀ x ∈ bucketGroup dur b rows, x.time ≤ r.time) ∧
    (∃ r ∈ bucketGroup dur b rows, (aggBucket symbol tf dur b rows).high = r.high) ∧
    (∀ x ∈ bucketGroup dur b rows, x.high ≤ (aggBucket symbol tf dur b rows).high) ∧
    (∃ r ∈ bucketGroup dur b rows, (aggBucket symbol tf dur b rows).low = r.low) ∧
    (∀ x ∈ bucketGroup dur b rows, (aggBucket symbol tf dur b rows).low ≤ x.low) := by
  set g := bucketGroup dur b rows with hg
  have hsne : g.insertionSort timeAscR ≠ [] := by
    intro hc
    have := List.length_insertionSort timeAscR g
    rw [hc] at this
    exact hne (List.length_eq_zero.mp this.symm)
  obtain ⟨h, t, hsort⟩ := List.exists_cons_of_ne_nil hsne
  have hmem_iff : ∀ x, x ∈ g.insertionSort timeAscR ↔ x ∈ g :=
    fun x => List.mem_insertionSort timeAscR
  have hpair : (g.insertionSort timeAscR).Pairwise timeAscR :=
    List.sorted_insertionSort timeAscR g
  refine ⟨?_, ?_, ?_, ?_, ?_, ?_⟩
  · -- open = first by ascending time
    refine ⟨h, (hmem_iff h).mp (hsort ▸ List.mem_cons_self h t), ?_, ?_⟩
    · show (((g.insertionSort timeAscR).head?).map Row.open_).getD 0 = h.open_
      rw [hsort]
      rfl
    · intro x hx
      have hx1 : x ∈ h :: t := hsort ▸ (hmem_iff x).mpr hx
      rcases List.mem_cons.mp hx1 with hx1 | hx1
      · rw [hx1]
      · rw [hsort] at hpair
        exact (List.pairwise_cons.mp hpair).1 x hx1
  · -- close = last by ascending time, via the reversed list
    have hrevne : (g.insertionSort timeAscR).reverse ≠ [] := by
      simpa using hsne
    obtain ⟨h2, t2, hrev⟩ := List.exists_cons_of_ne_nil hrevne
    have hrevpair : ((g.insertionSort timeAscR).reverse).Pairwise
        (fun a c => timeAscR c a) := List.pairwise_reverse.mpr hpair
    refine ⟨h2, ?_, ?_, ?_⟩
    · have : h2 ∈ (g.insertionSort timeAscR).reverse := hrev ▸ List.mem_cons_self h2 t2
      exact (hmem_iff h2).mp (List.mem_reverse.mp this)
    · show (((g.insertionSort timeAscR).getLast?).map Row.close).getD 0 = h2.close
      rw [← List.head?_reverse, hrev]
      rfl
    · intro x hx
      have hx1 : x ∈ h2 :: t2 := by
        rw [← hrev, List.mem_reverse]
        exact (hmem_iff x).mpr hx
      rcases List.mem_cons.mp hx1 with hx1 | hx1
      · rw [hx1]
      · rw [hrev] at hrevpair
        exact (List.pairwise_cons.mp hrevpair).1 x hx1
  · -- high is attained
    have hmapne : g.map Row.high ≠ [] := by
      intro hc
      exact hne (List.map_eq_nil_iff.mp hc)
    obtain ⟨y, ys, hmap⟩ := List.exists_cons_of_ne_nil hmapne
    have hagg : (aggBucket symbol tf dur b rows).high = ys.foldl max y := by
      show (aggMax (g.map Row.high)).getD 0 = ys.foldl max y
      rw [hmap]
      rfl
    rcases foldl_max_mem ys y with hc | hc
    · have : y ∈ g.map Row.high := hmap ▸ List.mem_cons_self y ys
      rw [List.mem_map] at this
      obtain ⟨r, hr, hry⟩ := this
      exact ⟨r, hr, by rw [hagg, hc, hry]⟩
    · have : ys.foldl max y ∈ g.map Row.high := hmap ▸ List.mem_cons_of_mem y hc
      rw [List.mem_map] at this
      obtain ⟨r, hr, hry⟩ := this
      exact ⟨r, hr, by rw [hagg, hry]⟩
  · -- high dominates
    intro x hx
    have hmapne : g.map Row.high ≠ [] := by
      intro hc
      exact hne (List.map_eq_nil_iff.mp hc)
    obtain ⟨y, ys, hmap⟩ := List.exists_cons_of_ne_nil hmapne
    have hagg : (aggBucket symbol tf dur b rows).high = ys.foldl max y := by
      show (aggMax (g.map Row.high)).getD 0 = ys.foldl max y
      rw [hmap]
      rfl
    have hxm : x.high ∈ g.map Row.high := List.mem_map_of_mem Row.high hx
    rw [hmap] at hxm
    rw [hagg]
    rcases List.mem_cons.mp hxm with hxm | hxm
    · rw [hxm]
      exact (foldl_max_dominates ys y).1
    · exact (foldl_max_dominates ys y).2 _ hxm
  · -- low is attained
    have hmapne : g.map Row.low ≠ [] := by
      intro hc
      exact hne (List.map_eq_nil_iff.mp hc)
    obtain ⟨y, ys, hmap⟩ := List.exists_cons_of_ne_nil hmapne
    have hagg : (aggBucket symbol tf dur b rows).low = ys.foldl min y := by
      show (aggMin (g.map Row.low)).getD 0 = ys.foldl min y
      rw [hmap]
      rfl
    rcases foldl_min_mem ys y with hc | hc
    · have : y ∈ g.map Row.low := hmap ▸ List.mem_cons_self y ys
      rw [List.mem_map] at this
      obtain ⟨r, hr, hry⟩ := this
      exact ⟨r, hr, by rw [hagg, hc, hry]⟩
    · have : ys.foldl min y ∈ g.map Row.low := hmap ▸ List.mem_cons_of_mem y hc
      rw [List.mem_map] at this
      obtain ⟨r, hr, hry⟩ := this
      exact ⟨r, hr, by rw [hagg, hry]⟩
  · -- low is a lower bound
    intro x hx
    have hmapne : g.map Row.low ≠ [] := by
      intro hc
      exact hne (List.map_eq_nil_iff.mp hc)
    obtain ⟨y, ys, hmap⟩ := List.exists_cons_of_ne_nil hmapne
    have hagg : (aggBucket symbol tf dur b rows).low = ys.foldl min y := by
      show (aggMin (g.map Row.low)).getD 0 = ys.foldl min y
      rw [hmap]
      rfl
    have hxm : x.low ∈ g.map Row.low := List.mem_map_of_mem Row.low hx
    rw [hmap] at hxm
    rw [hagg]
    rcases List.mem_cons.mp hxm with hxm | hxm
    · rw [hxm]
      exact (foldl_min_dominates ys y).1
    · exact (foldl_min_dominates ys y).2 _ hxm


/-- The 60-bar scenario store: one `EURUSD`/`1s` bar per second for 60
consecutive seconds. -/
def store60 : Store :=
  (List.range 60).map fun (i : ℕ) =>
    ⟨(i : ℤ), "EURUSD", "1s", 11/10, 11005/10000, 10998/10000, 11002/10000, 1000,
      none, none, none, none⟩

theorem replicate_dedup_succ {α : Type} [DecidableEq α] :
    ∀ (n : ℕ) (a : α), (List.replicate (n + 1) a).dedup = [a] := by
  intro n
  induction n with
  | zero => intro a; rfl
  | succ m ih =>
      intro a
      rw [List.replicate_succ]
      rw [List.dedup_cons_of_mem (List.mem_replicate.mpr ⟨Nat.succ_ne_zero m, rfl⟩)]
      exact ih a

theorem foldl_max_replicate (c : ℚ) : ∀ n, (List.replicate n c).foldl max c = c := by
  intro n
  induction n with
  | zero => rfl
  | succ m ih =>
      rw [List.replicate_succ, List.foldl_cons, max_self]
      exact ih

theorem foldl_min_replicate (c : ℚ) : ∀ n, (List.replicate n c).foldl min c = c := by
  intro n
  induction n with
  | zero => rfl
  | succ m ih =>
      rw [List.replicate_succ, List.foldl_cons, min_self]
      exact ih

theorem filterMap_id_replicate_none {α : Type} :
    ∀ n, (List.replicate n (none : Option α)).filterMap id = [] := by
  intro n
  induction n with
  | zero => rfl
  | succ m ih =>
      rw [List.replicate_succ, List.filterMap_cons]
      exact ih

theorem getBars_scenario_60s :
    getBars store60 "EURUSD" "1m" 500 =
      [⟨0, "EURUSD", "1m", 11/10, 11005/10000, 10998/10000, 11002/10000, 60000,
        none, none, none, none⟩] := by
  have hbase : baseRows store60 "EURUSD" = store60 := by
    unfold baseRows
    rw [List.filter_eq_self]
    intro a ha
    unfold store60 at ha
    rw [List.mem_map] at ha
    obtain ⟨i, _, hi⟩ := ha
    subst hi
    simp
  have hbucket0 : ∀ r ∈ store60, bucketOf 60 r.time = 0 := by
    intro r hr
    unfold store60 at hr
    rw [List.mem_map] at hr
    obtain ⟨i, hi, hir⟩ := hr
    subst hir
    rw [List.mem_range] at hi
    unfold bucketOf
    rw [Int.fdiv_eq_ediv _ (by norm_num)]
    rw [Int.ediv_eq_zero_of_lt (Int.ofNat_nonneg i) (by exact_mod_cast hi)]
    ring
  have hmap0 : (store60.map fun r => bucketOf 60 r.time) = List.replicate 60 0 := by
    rw [List.eq_replicate_iff]
    constructor
    · rw [List.length_map]
      rfl
    · intro b hb
      rw [List.mem_map] at hb
      obtain ⟨r, hr, hrb⟩ := hb
      rw [← hrb]
      exact hbucket0 r hr
  have hbuckets : bucketsDesc 60 store60 500 = [0] := by
    unfold bucketsDesc
    rw [hmap0]
    rw [show (60 : ℕ) = 59 + 1 from rfl, replicate_dedup_succ]
    rfl
  have hgroup : bucketGroup 60 0 store60 = store60 := by
    unfold bucketGroup
    rw [List.filter_eq_self]
    intro a ha
    simp [hbucket0 a ha]
  have hsortstore : store60.insertionSort timeAscR = store60 := by
    apply List.Sorted.insertionSort_eq
    unfold store60 List.Sorted
    rw [List.pairwise_map]
    apply (List.pairwise_lt_range 60).imp
    intro a b hab
    show (a : ℤ) ≤ (b : ℤ)
    exact_mod_cast Nat.le_of_lt hab
  have hdur : parseTimeframe "1m" = 60 := rfl
  have hout : getBars store60 "EURUSD" "1m" 500 =
      [aggBucket "EURUSD" "1m" 60 0 store60] := by
    unfold getBars
    rw [if_neg (by decide)]
    simp only [hdur, hbase, hbuckets, List.map_cons, List.map_nil]
  rw [hout]
  -- head and last of the chronologically sorted group
  have hstep : store60 = ⟨0, "EURUSD", "1s", 11/10, 11005/10000, 10998/10000,
      11002/10000, 1000, none, none, none, none⟩ ::
      ((List.range 59).map fun (i : ℕ) =>
        ⟨((i + 1 : ℕ) : ℤ), "EURUSD", "1s", 11/10, 11005/10000, 10998/10000,
          11002/10000, 1000, none, none, none, none⟩) := by
    unfold store60
    rw [show (60 : ℕ) = 59 + 1 from rfl, List.range_succ_eq_map]
    rw [List.map_cons, List.map_map]
    rfl
  have hhead : store60.head? = some ⟨0, "EURUSD", "1s", 11/10, 11005/10000,
      10998/10000, 11002/10000, 1000, none, none, none, none⟩ := by
    rw [hstep]
    rfl
  have hlast : store60.getLast? = some ⟨(59 : ℤ), "EURUSD", "1s", 11/10, 11005/10000,
      10998/10000, 11002/10000, 1000, none, none, none, none⟩ := by
    unfold store60
    rw [show (60 : ℕ) = Nat.succ 59 from rfl, List.range_succ, List.map_append]
    simp only [List.map_cons, List.map_nil]
    rw [List.getLast?_concat]
    norm_num
  have hconst : ∀ (f : Row → ℚ) (c : ℚ), (∀ i : ℕ,
      f ⟨(i : ℤ), "EURUSD", "1s", 11/10, 11005/10000, 10998/10000, 11002/10000,
        1000, none, none, none, none⟩ = c) →
      store60.map f = List.replicate 60 c := by
    intro f c hf
    rw [List.eq_replicate_iff]
    refine ⟨by rw [List.length_map]; rfl, ?_⟩
    intro b hb
    rw [List.mem_map] at hb
    obtain ⟨r, hr, hrb⟩ := hb
    unfold store60 at hr
    rw [List.mem_map] at hr
    obtain ⟨i, _, hir⟩ := hr
    rw [← hrb, ← hir]
    exact hf i
  have hconstO : ∀ (f : Row → Option ℚ), (∀ i : ℕ,
      f ⟨(i : ℤ), "EURUSD", "1s", 11/10, 11005/10000, 10998/10000, 11002/10000,
        1000, none, none, none, none⟩ = none) →
      store60.map f = List.replicate 60 none := by
    intro f hf
    rw [List.eq_replicate_iff]
    refine ⟨by rw [List.length_map]; rfl, ?_⟩
    intro b hb
    rw [List.mem_map] at hb
    obtain ⟨r, hr, hrb⟩ := hb
    unfold store60 at hr
    rw [List.mem_map] at hr
    obtain ⟨i, _, hir⟩ := hr
    rw [← hrb, ← hir]
    exact hf i
  have hhigh : aggMax (store60.map Row.high) = some (11005/10000) := by
    rw [hconst Row.high (11005/10000) (fun i => rfl)]
    rw [show (60 : ℕ) = 59 + 1 from rfl, List.replicate_succ]
    show some ((List.replicate 59 (11005/10000 : ℚ)).foldl max (11005/10000)) =
      some (11005/10000)
    rw [foldl_max_replicate]
  have hlow : aggMin (store60.map Row.low) = some (10998/10000) := by
    rw [hconst Row.low (10998/10000) (fun i => rfl)]
    rw [show (60 : ℕ) = 59 + 1 from rfl, List.replicate_succ]
    show some ((List.replicate 59 (10998/10000 : ℚ)).foldl min (10998/10000)) =
      some (10998/10000)
    rw [foldl_min_replicate]
  have hvol : (store60.map Row.volume).sum = 60000 := by
    rw [hconst Row.volume 1000 (fun i => rfl), List.sum_replicate, nsmul_eq_mul]
    norm_num
  have hbid : osum (store60.map Row.bid_volume) = none := by
    rw [hconstO Row.bid_volume (fun i => rfl)]
    unfold osum
    rw [filterMap_id_replicate_none]
  have hask : osum (store60.map Row.ask_volume) = none := by
    rw [hconstO Row.ask_volume (fun i => rfl)]
    unfold osum
    rw [filterMap_id_replicate_none]
  have hnt : osumZ (store60.map Row.number_of_trades) = none := by
    have : store60.map Row.number_of_trades = List.replicate 60 none := by
      rw [List.eq_replicate_iff]
      refine ⟨by rw [List.length_map]; rfl, ?_⟩
      intro b hb
      rw [List.mem_map] at hb
      obtain ⟨r, hr, hrb⟩ := hb
      unfold store60 at hr
      rw [List.mem_map] at hr
      obtain ⟨i, _, hir⟩ := hr
      rw [← hrb, ← hir]
    rw [this]
    unfold osumZ
    rw [filterMap_id_replicate_none]
  have hoi : (store60.filterMap Row.open_interest).getLast? = none := by
    rw [show store60.filterMap Row.open_interest = [] from ?_]
    · rfl
    · rw [List.filterMap_eq_nil_iff]
      intro a ha
      unfold store60 at ha
      rw [List.mem_map] at ha
      obtain ⟨i, _, hia⟩ := ha
      rw [← hia]
  unfold aggBucket
  simp only [hgroup, hsortstore, hhead, hlast, hhigh, hlow, hvol, hbid, hask, hnt,
    hoi, Option.map_some', Option.getD_some]


theorem parseTimeframe_pos (tf : String) : 0 < parseTimeframe tf := by
  unfold parseTimeframe
  split_ifs <;> norm_num

theorem bucketOf_range (dur : ℕ) (hd : 0 < dur) (t : ℤ) :
    bucketOf dur t ≤ t ∧ t < bucketOf dur t + dur ∧ ∃ k : ℤ, bucketOf dur t = dur * k := by
  unfold bucketOf
  have hd1 : (0:ℤ) < (dur : ℤ) := by exact_mod_cast hd
  rw [Int.fdiv_eq_ediv _ hd1.le]
  have hident := Int.ediv_add_emod t (dur : ℤ)
  have hnn := Int.emod_nonneg t (ne_of_gt hd1)
  have hlt := Int.emod_lt_of_pos t hd1
  refine ⟨by linarith, by linarith, ⟨t / (dur : ℤ), rfl⟩⟩

theorem getLast?_filterMap_all_some {α β : Type} (f : α → Option β) :
    ∀ (l : List α), (∀ x ∈ l, (f x).isSome) →
      (l.filterMap f).getLast? = l.getLast?.bind f := by
  intro l
  induction l with
  | nil => intro _; rfl
  | cons x xs ih =>
      intro hall
      have hx : (f x).isSome := hall x (List.mem_cons_self x xs)
      obtain ⟨b, hb⟩ := Option.isSome_iff_exists.mp hx
      rw [List.filterMap_cons, hb]
      cases xs with
      | nil => simp [hb]
      | cons y ys =>
          have hfmne : (y :: ys).filterMap f ≠ [] := by
            have hy : (f y).isSome := hall y (List.mem_cons_of_mem x (List.mem_cons_self y ys))
            obtain ⟨c, hc⟩ := Option.isSome_iff_exists.mp hy
            rw [List.filterMap_cons, hc]
            exact List.cons_ne_nil c _
          obtain ⟨c, cs, hcs⟩ := List.exists_cons_of_ne_nil hfmne
          rw [hcs, List.getLast?_cons_cons, ← hcs]
          rw [ih (fun z hz => hall z (List.mem_cons_of_mem x hz))]
          rw [List.getLast?_cons_cons]

theorem aggBucket_last_open_interest (symbol tf : String) (dur : ℕ) (b : ℤ)
    (rows : List Row) (hne : bucketGroup dur b rows ≠ [])
    (hsome : ∀ x ∈ bucketGroup dur b rows, (x.open_interest).isSome) :
    ∃ r ∈ bucketGroup dur b rows,
      (aggBucket symbol tf dur b rows).open_interest = r.open_interest ∧
      ∀ x ∈ bucketGroup dur b rows, x.time ≤ r.time := by
  set g := bucketGroup dur b rows with hg
  have hsne : g.insertionSort timeAscR ≠ [] := by
    intro hc
    have := List.length_insertionSort timeAscR g
    rw [hc] at this
    exact hne (List.length_eq_zero.mp this.symm)
  have hmem_iff : ∀ x, x ∈ g.insertionSort timeAscR ↔ x ∈ g :=
    fun x => List.mem_insertionSort timeAscR
  have hpair : (g.insertionSort timeAscR).Pairwise timeAscR :=
    List.sorted_insertionSort timeAscR g
  have hrevne : (g.insertionSort timeAscR).reverse ≠ [] := by
    simpa using hsne
  obtain ⟨h2, t2, hrev⟩ := List.exists_cons_of_ne_nil hrevne
  have hrevpair : ((g.insertionSort timeAscR).reverse).Pairwise
      (fun a c => timeAscR c a) := List.pairwise_reverse.mpr hpair
  have hlast2 : (g.insertionSort timeAscR).getLast? = some h2 := by
    rw [← List.head?_reverse, hrev]
    rfl
  refine ⟨h2, ?_, ?_, ?_⟩
  · have : h2 ∈ (g.insertionSort timeAscR).reverse := hrev ▸ List.mem_cons_self h2 t2
    exact (hmem_iff h2).mp (List.mem_reverse.mp this)
  · show ((g.insertionSort timeAscR).filterMap Row.open_interest).getLast? =
      h2.open_interest
    rw [getLast?_filterMap_all_some Row.open_interest _
      (fun x hx => hsome x ((hmem_iff x).mp hx)), hlast2]
    rfl
  · intro x hx
    have hx1 : x ∈ h2 :: t2 := by
      rw [← hrev, List.mem_reverse]
      exact (hmem_iff x).mpr hx
    rcases List.mem_cons.mp hx1 with hx1 | hx1
    · rw [hx1]
    · rw [hrev] at hrevpair
      exact (List.pairwise_cons.mp hrevpair).1 x hx1


theorem baseRows_store60 : baseRows store60 "EURUSD" = store60 := by
  unfold baseRows
  rw [List.filter_eq_self]
  intro a ha
  unfold store60 at ha
  rw [List.mem_map] at ha
  obtain ⟨i, _, hi⟩ := ha
  subst hi
  simp

theorem store60_times_nodup :
    (baseRows store60 "EURUSD").Pairwise (fun a b => a.time ≠ b.time) := by
  rw [baseRows_store60]
  unfold store60
  rw [List.pairwise_map]
  apply (List.pairwise_lt_range 60).imp
  intro a b hab
  show (a : ℤ) ≠ (b : ℤ)
  exact_mod_cast Nat.ne_of_lt hab

/-- C2: for any coarser-than-base timeframe (unrecognized ones defaulting
to one minute), `get_bars` returns newest-bucket-first at most `limit`
aggregated bars — exactly the non-empty epoch-aligned buckets of the
symbol's `1s` rows — where each bar's open/close are the first/last
contributing row's values by ascending time, high/low are the max/min,
the volume columns are sums (SQL `NULL` semantics), `open_interest` is
the last value by time ascending (when present on all rows), every
contributing row falls inside `[bucket, bucket + duration)`, and the
60-bar `EURUSD` scenario aggregates to the single expected `1m` bar with
`volume = 60000`. -/
theorem C2_get_bars_aggregation (store : Store) (symbol tf : String) (limit : ℕ)
    (htf : tf ≠ "1s")
    (hnd : (baseRows store symbol).Pairwise (fun a b => a.time ≠ b.time)) :
    (getBars store symbol tf limit).length ≤ limit ∧
    ((getBars store symbol tf limit).map Row.time).Pairwise (· > ·) ∧
    ((getBars store symbol tf limit).map Row.time) =
      bucketsDesc (parseTimeframe tf) (baseRows store symbol) limit ∧
    (∀ b ∈ bucketsDesc (parseTimeframe tf) (baseRows store symbol) limit,
      ∃ bar ∈ getBars store symbol tf limit, bar.time = b) ∧
    (∀ bar ∈ getBars store symbol tf limit,
      bar.symbol = symbol ∧ bar.timeframe = tf ∧
      bucketGroup (parseTimeframe tf) bar.time (baseRows store symbol) ≠ [] ∧
      (∃ k : ℤ, bar.time = (parseTimeframe tf : ℤ) * k) ∧
      (∀ x ∈ bucketGroup (parseTimeframe tf) bar.time (baseRows store symbol),
        bucketOf (parseTimeframe tf) x.time = bar.time ∧
        bar.time ≤ x.time ∧ x.time < bar.time + (parseTimeframe tf : ℤ)) ∧
      (∃ r ∈ bucketGroup (parseTimeframe tf) bar.time (baseRows store symbol),
        bar.open_ = r.open_ ∧
        ∀ x ∈ bucketGroup (parseTimeframe tf) bar.time (baseRows store symbol),
          r.time ≤ x.time) ∧
      (∃ r ∈ bucketGroup (parseTimeframe tf) bar.time (baseRows store symbol),
        bar.close = r.close ∧
        ∀ x ∈ bucketGroup (parseTimeframe tf) bar.time (baseRows store symbol),
          x.time ≤ r.time) ∧
      (∃ r ∈ bucketGroup (parseTimeframe tf) bar.time (baseRows store symbol),
        bar.high = r.high) ∧
      (∀ x ∈ bucketGroup (parseTimeframe tf) bar.time (baseRows store symbol),
        x.high ≤ bar.high) ∧
      (∃ r ∈ bucketGroup (parseTimeframe tf) bar.time (baseRows store symbol),
        bar.low = r.low) ∧
      (∀ x ∈ bucketGroup (parseTimeframe tf) bar.time (baseRows store symbol),
        bar.low ≤ x.low) ∧
      bar.volume = ((bucketGroup (parseTimeframe tf) bar.time
        (baseRows store symbol)).map Row.volume).sum ∧
      bar.bid_volume = osum ((bucketGroup (parseTimeframe tf) bar.time
        (baseRows store symbol)).map Row.bid_volume) ∧
      bar.ask_volume = osum ((bucketGroup (parseTimeframe tf) bar.time
        (baseRows store symbol)).map Row.ask_volume) ∧
      bar.number_of_trades = osumZ ((bucketGroup (parseTimeframe tf) bar.time
        (baseRows store symbol)).map Row.number_of_trades) ∧
      ((∀ x ∈ bucketGroup (parseTimeframe tf) bar.time (baseRows store symbol),
          (x.open_interest).isSome) →
        ∃ r ∈ bucketGroup (parseTimeframe tf) bar.time (baseRows store symbol),
          bar.open_interest = r.open_interest ∧
          ∀ x ∈ bucketGroup (parseTimeframe tf) bar.time (baseRows store symbol),
            x.time ≤ r.time)) ∧
    getBars store60 "EURUSD" "1m" 500 =
      [⟨0, "EURUSD", "1m", 11/10, 11005/10000, 10998/10000, 11002/10000, 60000,
        none, none, none, none⟩] := by
  have hout : getBars store symbol tf limit =
      (bucketsDesc (parseTimeframe tf) (baseRows store symbol) limit).map
        (fun b => aggBucket symbol tf (parseTimeframe tf) b (baseRows store symbol)) := by
    unfold getBars
    rw [if_neg htf]
  have hmaptime : ((getBars store symbol tf limit).map Row.time) =
      bucketsDesc (parseTimeframe tf) (baseRows store symbol) limit := by
    rw [hout, List.map_map]
    exact List.map_id _
  refine ⟨?_, ?_, hmaptime, ?_, ?_, getBars_scenario_60s⟩
  · rw [hout, List.length_map]
    exact List.length_take_le _ _
  · rw [hmaptime]
    unfold bucketsDesc
    have hsorted : ((((baseRows store symbol).map fun r =>
        bucketOf (parseTimeframe tf) r.time).dedup).insertionSort descZ).Pairwise descZ :=
      List.sorted_insertionSort descZ _
    have hnodup : ((((baseRows store symbol).map fun r =>
        bucketOf (parseTimeframe tf) r.time).dedup).insertionSort descZ).Nodup := by
      rw [(List.perm_insertionSort descZ _).nodup_iff]
      exact List.nodup_dedup _
    exact List.Pairwise.sublist (List.take_sublist _ _)
      ((hsorted.and hnodup).imp fun h => lt_of_le_of_ne h.1 h.2.symm)
  · intro b hb
    rw [hout]
    exact ⟨aggBucket symbol tf (parseTimeframe tf) b (baseRows store symbol),
      List.mem_map_of_mem _ hb, rfl⟩
  · intro bar hbar
    rw [hout, List.mem_map] at hbar
    obtain ⟨b, hb, hbbar⟩ := hbar
    have htime : (aggBucket symbol tf (parseTimeframe tf) b (baseRows store symbol)).time
        = b := rfl
    subst hbbar
    rw [htime]
    have hne := bucketGroup_ne_nil (parseTimeframe tf) (baseRows store symbol) limit b hb
    obtain ⟨hopen, hclose, hhighm, hhighd, hlowm, hlowd⟩ :=
      aggBucket_spec symbol tf (parseTimeframe tf) b (baseRows store symbol) hne
    have hmemb : ∀ x ∈ bucketGroup (parseTimeframe tf) b (baseRows store symbol),
        bucketOf (parseTimeframe tf) x.time = b := by
      intro x hx
      unfold bucketGroup at hx
      rw [List.mem_filter] at hx
      simpa using hx.2
    refine ⟨rfl, rfl, hne, ?_, ?_, hopen, hclose, hhighm, hhighd, hlowm, hlowd,
      rfl, rfl, rfl, rfl, ?_⟩
    · obtain ⟨x, hx⟩ := List.exists_mem_of_ne_nil _ hne
      obtain ⟨_, _, k, hk⟩ := bucketOf_range (parseTimeframe tf)
        (parseTimeframe_pos tf) x.time
      exact ⟨k, by rw [← hmemb x hx, hk]⟩
    · intro x hx
      obtain ⟨h1, h2, _⟩ := bucketOf_range (parseTimeframe tf)
        (parseTimeframe_pos tf) x.time
      rw [hmemb x hx] at h1 h2
      exact ⟨hmemb x hx, h1, h2⟩
    · intro hsome
      exact aggBucket_last_open_interest symbol tf (parseTimeframe tf) b
        (baseRows store symbol) hne hsome


/-- C2 witnessed at the scenario store: 60 consecutive `EURUSD`/`1s`
bars aggregate to exactly one `1m` bar. -/
theorem C2_get_bars_aggregation_witness :
    (getBars store60 "EURUSD" "1m" 500).length ≤ 500 ∧
    ((getBars store60 "EURUSD" "1m" 500).map Row.time).Pairwise (· > ·) ∧
    getBars store60 "EURUSD" "1m" 500 =
      [⟨0, "EURUSD", "1m", 11/10, 11005/10000, 10998/10000, 11002/10000, 60000,
        none, none, none, none⟩] := by
  have h := C2_get_bars_aggregation store60 "EURUSD" "1m" 500 (by decide) store60_times_nodup
  exact ⟨h.1, h.2.1, h.2.2.2.2.2⟩


end AlphaChart
